import Mathlib

/-!
Verification of the uuencode streaming codec (package `uuencode`, file `uu.go`).

The embedding below models bytes as `Nat` (machine-byte arithmetic is made
explicit with `% 256` where the Go `byte` type can wrap), byte buffers as
`List Nat`, and the `transform.Transformer` call contract as functions from
a destination capacity, a source list and an `atEOF` flag to the produced
destination bytes, the count of consumed source bytes and a result code.
Run-time panics of the Go code (out-of-range indexing, closing a closed
channel) are modelled by `Option`, with `none` meaning the call panics.
-/

set_option maxHeartbeats 2000000
set_option maxRecDepth 8000

/-- Result codes of a transform step: `ok` is a nil error, `shortSrc` and
`shortDst` are `transform.ErrShortSrc`/`ErrShortDst`, `badUUDec` is
`ErrBadUUDec`, `badLen` is `ErrBadLen`, `foundEOF` is the internal
`errFoundEOF` marker. -/
inductive Res where
  | ok
  | shortSrc
  | shortDst
  | badUUDec
  | badLen
  | foundEOF
deriving DecidableEq, Repr

/-- Split a byte list at its first newline (byte 10), returning the line and
the remainder; `none` when no newline occurs.  This models
`strings.Index(string(src), "\n")` together with the slicing around it. -/
def splitNL : List Nat → Option (List Nat × List Nat)
  | [] => none
  | c :: rest =>
    if c = 10 then some ([], rest)
    else (splitNL rest).map (fun p => (c :: p.1, p.2))

theorem splitNL_eq_append {l b t : List Nat} (h : splitNL l = some (b, t)) :
    l = b ++ 10 :: t := by
  induction l generalizing b t with
  | nil => simp [splitNL] at h
  | cons c rest ih =>
    simp only [splitNL] at h
    by_cases hc : c = 10
    · simp [hc] at h
      simp [hc, h.1.symm, h.2]
    · simp only [hc, if_false, Option.map_eq_some'] at h
      obtain ⟨p, hp, he⟩ := h
      cases he
      simpa using ih (b := p.1) (t := p.2) (by simpa using hp)

theorem splitNL_some_len {l b t : List Nat} (h : splitNL l = some (b, t)) :
    t.length < l.length := by
  have := splitNL_eq_append h; subst this; simp; omega

theorem splitNL_line_len {l b t : List Nat} (h : splitNL l = some (b, t)) :
    b.length + 1 + t.length = l.length := by
  have := splitNL_eq_append h; subst this; simp; omega

theorem splitNL_append {a r : List Nat} (h : 10 ∉ a) :
    splitNL (a ++ 10 :: r) = some (a, r) := by
  induction a with
  | nil => simp [splitNL]
  | cons c rest ih =>
    simp only [List.mem_cons, not_or] at h
    have hc : ¬ c = 10 := fun hh => h.1 hh.symm
    simp [splitNL, hc, ih h.2]

theorem splitNL_none {l : List Nat} (h : 10 ∉ l) : splitNL l = none := by
  induction l with
  | nil => rfl
  | cons c rest ih =>
    simp only [List.mem_cons, not_or] at h
    have hc : ¬ c = 10 := fun hh => h.1 hh.symm
    simp [splitNL, hc, ih h.2]

/-- Go `getOffset`: a grave (0x60) decodes to 0, every other byte has 0x20
subtracted with byte wrap-around (`c - uuOffset` on `byte`). -/
def getOffset (c : Nat) : Nat := if c = 96 then 0 else (c + 224) % 256

/-- The `useGrave` substitution at the end of Go `miniEncode`: an output byte
that equals 0x20 (space) is replaced by 0x60 (grave). -/
def grav (useGrave : Bool) (d : Nat) : Nat := if useGrave ∧ d = 32 then 96 else d

/-- Go `miniEncode`: encode up to 3 source bytes into 4 uuencoded bytes.
`n` is the number of padding positions: the second source byte is read only
when `n < 2` and the third only when `n < 1`, exactly as in the Go branches;
bytes beyond the list are never read at the Go call sites, so `getD _ 0` is
used. -/
def miniEncode (src : List Nat) (n : Nat) (g : Bool) : List Nat :=
  [grav g (((src.getD 0 0 &&& 0xfc) >>> 2) + 32),
   grav g (((src.getD 0 0 &&& 0x03) <<< 4 |||
      (if n < 2 then (src.getD 1 0 &&& 0xf0) >>> 4 else 0)) + 32),
   grav g (((if n < 2 then (src.getD 1 0 &&& 0x0f) <<< 2 else 0) |||
      (if n < 1 then (src.getD 2 0 &&& 0xc0) >>> 6 else 0)) + 32),
   grav g ((if n < 1 then src.getD 2 0 &&& 0x3f else 0) + 32)]

/-- One group of Go `miniConvert`'s loop body: 4 uuencoded bytes back to 3
bytes.  Shifts are on Go `byte`, hence the `% 256`. -/
def mcGroup (c0 c1 c2 c3 : Nat) : List Nat :=
  [((getOffset c0 <<< 2) % 256) ||| ((0x30 &&& getOffset c1) >>> 4),
   ((getOffset c1 <<< 4) % 256) ||| ((0x3c &&& getOffset c2) >>> 2),
   ((getOffset c2 <<< 6) % 256) ||| (0x3f &&& getOffset c3)]

/-- Go `miniConvert`: decode groups of 4 uuencoded bytes into 3 bytes each.
All call sites guarantee the input length is a multiple of 4 (a shorter
leftover would make the Go loop index out of range; such a leftover is
unreachable and ignored here). -/
def miniConvert : List Nat → List Nat
  | c0 :: c1 :: c2 :: c3 :: rest => mcGroup c0 c1 c2 c3 ++ miniConvert rest
  | _ => []

theorem miniConvert_cons4 (c0 c1 c2 c3 : Nat) (rest : List Nat) :
    miniConvert (c0 :: c1 :: c2 :: c3 :: rest) = mcGroup c0 c1 c2 c3 ++ miniConvert rest := rfl

theorem miniConvert_nil : miniConvert [] = [] := rfl

theorem miniConvert_length_of_mod4 : ∀ (l : List Nat), l.length % 4 = 0 →
    (miniConvert l).length = l.length / 4 * 3
  | [], _ => rfl
  | [_], h => by simp at h
  | [_, _], h => by simp at h
  | [_, _, _], h => by simp at h
  | a :: b :: c :: d :: rest, h => by
      rw [miniConvert_cons4]
      have hr : rest.length % 4 = 0 := by simp at h; omega
      have ih := miniConvert_length_of_mod4 rest hr
      have h3 : (mcGroup a b c d).length = 3 := rfl
      simp only [List.length_append, List.length_cons, h3, ih]
      omega

/-! Bit-level facts used to relate the masked/shifted byte expressions of the
Go code to plain division and remainder, each settled by finite checking. -/

theorem bits_c0 : ∀ s < 256, (s &&& 0xfc) >>> 2 = s / 4 := by decide

theorem bits_hi : ∀ s < 256, (s &&& 0x03) <<< 4 = s % 4 * 16 := by decide

theorem bits_c1b : ∀ s < 256, (s &&& 0xf0) >>> 4 = s / 16 := by decide

theorem bits_c2a : ∀ s < 256, (s &&& 0x0f) <<< 2 = s % 16 * 4 := by decide

theorem bits_c2b : ∀ s < 256, (s &&& 0xc0) >>> 6 = s / 64 := by decide

theorem bits_c3 : ∀ s < 256, s &&& 0x3f = s % 64 := by decide

theorem bits_or1 : ∀ x < 4, ∀ y < 16, x * 16 ||| y = x * 16 + y := by decide

theorem bits_or2 : ∀ x < 16, ∀ y < 4, x * 4 ||| y = x * 4 + y := by decide

theorem bits_o0 : ∀ v0 < 64, ∀ v1 < 64,
    ((v0 <<< 2) % 256) ||| ((0x30 &&& v1) >>> 4) = v0 * 4 + v1 / 16 := by decide

theorem bits_o1 : ∀ v1 < 64, ∀ v2 < 64,
    ((v1 <<< 4) % 256) ||| ((0x3c &&& v2) >>> 2) = v1 % 16 * 16 + v2 / 4 := by decide

theorem bits_o2 : ∀ v2 < 64, ∀ v3 < 64,
    ((v2 <<< 6) % 256) ||| (0x3f &&& v3) = v2 % 4 * 64 + v3 := by decide

theorem getOffset_grav : ∀ (g : Bool), ∀ v < 64, getOffset (grav g (v + 32)) = v := by decide

/-- Values of the four bytes produced by `miniEncode src 0 g` (full group). -/
theorem miniEncode0_eq (src : List Nat) (g : Bool)
    (h0 : src.getD 0 0 < 256) (h1 : src.getD 1 0 < 256) (h2 : src.getD 2 0 < 256) :
    miniEncode src 0 g =
      [grav g (src.getD 0 0 / 4 + 32),
       grav g ((src.getD 0 0 % 4 * 16 + src.getD 1 0 / 16) + 32),
       grav g ((src.getD 1 0 % 16 * 4 + src.getD 2 0 / 64) + 32),
       grav g (src.getD 2 0 % 64 + 32)] := by
  unfold miniEncode
  generalize hs0 : src.getD 0 0 = s0
  generalize hs1 : src.getD 1 0 = s1
  generalize hs2 : src.getD 2 0 = s2
  rw [hs0] at h0; rw [hs1] at h1; rw [hs2] at h2
  norm_num
  rw [bits_c0 _ h0, bits_hi _ h0, bits_c1b _ h1, bits_c2a _ h1, bits_c2b _ h2, bits_c3 _ h2]
  rw [bits_or1 _ (by omega) _ (by omega), bits_or2 _ (by omega) _ (by omega)]
  exact ⟨rfl, rfl, rfl, rfl⟩

/-- Values of the four bytes produced by `miniEncode src 1 g` (one padding). -/
theorem miniEncode1_eq (src : List Nat) (g : Bool)
    (h0 : src.getD 0 0 < 256) (h1 : src.getD 1 0 < 256) :
    miniEncode src 1 g =
      [grav g (src.getD 0 0 / 4 + 32),
       grav g ((src.getD 0 0 % 4 * 16 + src.getD 1 0 / 16) + 32),
       grav g (src.getD 1 0 % 16 * 4 + 32),
       grav g (0 + 32)] := by
  unfold miniEncode
  generalize hs0 : src.getD 0 0 = s0
  generalize hs1 : src.getD 1 0 = s1
  rw [hs0] at h0; rw [hs1] at h1
  norm_num
  rw [bits_c0 _ h0, bits_hi _ h0, bits_c1b _ h1, bits_c2a _ h1]
  rw [bits_or1 _ (by omega) _ (by omega)]
  exact ⟨rfl, rfl, rfl⟩

/-- Values of the four bytes produced by `miniEncode src 2 g` (two paddings). -/
theorem miniEncode2_eq (src : List Nat) (g : Bool) (h0 : src.getD 0 0 < 256) :
    miniEncode src 2 g =
      [grav g (src.getD 0 0 / 4 + 32),
       grav g (src.getD 0 0 % 4 * 16 + 32),
       grav g (0 + 32),
       grav g (0 + 32)] := by
  unfold miniEncode
  generalize hs0 : src.getD 0 0 = s0
  rw [hs0] at h0
  norm_num
  rw [bits_c0 _ h0, bits_hi _ h0]
  exact ⟨rfl, rfl⟩

theorem mcGroup_grav (g : Bool) (v0 v1 v2 v3 : Nat)
    (hv0 : v0 < 64) (hv1 : v1 < 64) (hv2 : v2 < 64) (hv3 : v3 < 64) :
    mcGroup (grav g (v0 + 32)) (grav g (v1 + 32)) (grav g (v2 + 32)) (grav g (v3 + 32)) =
      [v0 * 4 + v1 / 16, v1 % 16 * 16 + v2 / 4, v2 % 4 * 64 + v3] := by
  unfold mcGroup
  rw [getOffset_grav g v0 hv0, getOffset_grav g v1 hv1, getOffset_grav g v2 hv2,
    getOffset_grav g v3 hv3]
  rw [bits_o0 _ hv0 _ hv1, bits_o1 _ hv1 _ hv2, bits_o2 _ hv2 _ hv3]

/-- Quantum round trip without padding: decoding an encoded full 3-byte group
recovers the three source bytes. -/
theorem mc_miniEncode0 (src : List Nat) (g : Bool)
    (h0 : src.getD 0 0 < 256) (h1 : src.getD 1 0 < 256) (h2 : src.getD 2 0 < 256) :
    miniConvert (miniEncode src 0 g) = [src.getD 0 0, src.getD 1 0, src.getD 2 0] := by
  rw [miniEncode0_eq src g h0 h1 h2, miniConvert_cons4,
    mcGroup_grav g _ _ _ _ (by omega) (by omega) (by omega) (by omega), miniConvert_nil]
  simp only [List.append_nil, List.cons.injEq, and_true]
  omega

/-- Quantum round trip with one padding byte (2 real source bytes). -/
theorem mc_miniEncode1 (src : List Nat) (g : Bool)
    (h0 : src.getD 0 0 < 256) (h1 : src.getD 1 0 < 256) :
    miniConvert (miniEncode src 1 g) = [src.getD 0 0, src.getD 1 0, 0] := by
  rw [miniEncode1_eq src g h0 h1, miniConvert_cons4,
    mcGroup_grav g _ _ _ _ (by omega) (by omega) (by omega) (by omega), miniConvert_nil]
  simp only [List.append_nil, List.cons.injEq, and_true]
  omega

/-- Quantum round trip with two padding bytes (1 real source byte). -/
theorem mc_miniEncode2 (src : List Nat) (g : Bool) (h0 : src.getD 0 0 < 256) :
    miniConvert (miniEncode src 2 g) = [src.getD 0 0, 0, 0] := by
  rw [miniEncode2_eq src g h0, miniConvert_cons4,
    mcGroup_grav g _ _ _ _ (by omega) (by omega) (by omega) (by omega), miniConvert_nil]
  simp only [List.append_nil, List.cons.injEq, and_true]
  omega

/-- Default byte lookup stays below 256 when every member does. -/
theorem getD_lt_256 {l : List Nat} (hb : ∀ b ∈ l, b < 256) (i : Nat) : l.getD i 0 < 256 := by
  by_cases h : i < l.length
  · rw [List.getD_eq_getElem l 0 h]
    exact hb _ (List.getElem_mem h)
  · rw [List.getD_eq_default l 0 (by omega)]
    omega

theorem take3_eq (q : List Nat) (h : 3 ≤ q.length) :
    q.take 3 = [q.getD 0 0, q.getD 1 0, q.getD 2 0] := by
  rcases q with _ | ⟨a, _ | ⟨b, _ | ⟨c, rest⟩⟩⟩ <;> simp_all [List.getD]

theorem take_concat_getD (q : List Nat) (i : Nat) (h : i < q.length) :
    q.take i ++ [q.getD i 0] = q.take (i + 1) := by
  rw [List.take_succ]
  congr 1
  rw [List.getElem?_eq_getElem h]
  simp [List.getD_eq_getElem?_getD, List.getElem?_eq_getElem h]

theorem getD_drop (l : List Nat) (i j : Nat) : (l.drop i).getD j 0 = l.getD (i + j) 0 := by
  simp [List.getD_eq_getElem?_getD, List.getElem?_drop]

/-- The loop of Go `lineEncode` over the full 3-byte groups
(`for i := 0; i < n; i += 3`). -/
def encGroups (src : List Nat) (n : Nat) (g : Bool) : List Nat :=
  if n = 0 then [] else miniEncode src 0 g ++ encGroups (src.drop 3) (n - 3) g
termination_by n

/-- Go `lineEncode`: encode at most 45 bytes into `4*ceil(n/3)` uuencoded
bytes; a trailing group of 1 or 2 bytes is encoded with the matching padding
count. -/
def lineEncode (src : List Nat) (n : Nat) (g : Bool) : List Nat :=
  if n % 3 > 0 then
    encGroups src (n - n % 3) g ++ miniEncode (src.drop (n - n % 3)) (3 - n % 3) g
  else encGroups src n g

theorem miniEncode_length (src : List Nat) (n : Nat) (g : Bool) :
    (miniEncode src n g).length = 4 := rfl

theorem miniConvert_miniEncode_append (src : List Nat) (n : Nat) (g : Bool) (rest : List Nat) :
    miniConvert (miniEncode src n g ++ rest) =
      miniConvert (miniEncode src n g) ++ miniConvert rest := rfl

theorem encGroups_length (q : List Nat) (n : Nat) (g : Bool) :
    (encGroups q n g).length = 4 * ((n + 2) / 3) := by
  induction q, n, g using encGroups.induct with
  | case1 q g => simp [encGroups]
  | case2 q n g hn ih =>
    rw [encGroups, if_neg hn]
    simp only [List.length_append, ih, miniEncode_length]
    omega

theorem lineEncode_length (q : List Nat) (n : Nat) (g : Bool) :
    (lineEncode q n g).length = 4 * ((n + 2) / 3) := by
  unfold lineEncode
  by_cases hr : n % 3 > 0
  · rw [if_pos hr]
    simp only [List.length_append, encGroups_length, miniEncode_length]
    omega
  · rw [if_neg hr, encGroups_length]

theorem miniConvert_encGroups_append (q : List Nat) (n : Nat) (g : Bool) (rest : List Nat) :
    miniConvert (encGroups q n g ++ rest) =
      miniConvert (encGroups q n g) ++ miniConvert rest := by
  induction q, n, g using encGroups.induct with
  | case1 q g => simp [encGroups, miniConvert_nil]
  | case2 q n g hn ih =>
    rw [encGroups, if_neg hn, List.append_assoc, miniConvert_miniEncode_append,
      miniConvert_miniEncode_append, ih, List.append_assoc]

theorem encGroups_rt : ∀ (k : Nat) (q : List Nat) (g : Bool), 3 * k ≤ q.length →
    (∀ b ∈ q, b < 256) → miniConvert (encGroups q (3 * k) g) = q.take (3 * k) := by
  intro k
  induction k with
  | zero => intro q g _ _; simp [encGroups, miniConvert_nil]
  | succ m ih =>
    intro q g hlen hb
    rw [encGroups, if_neg (by omega)]
    rw [show 3 * (m + 1) - 3 = 3 * m by omega]
    rw [miniConvert_miniEncode_append]
    rw [mc_miniEncode0 q g (getD_lt_256 hb 0) (getD_lt_256 hb 1) (getD_lt_256 hb 2)]
    rw [ih (q.drop 3) g (by simp; omega) (fun b hbm => hb b (List.mem_of_mem_drop hbm))]
    rw [show 3 * (m + 1) = 3 + 3 * m by omega, List.take_add]
    congr 1
    exact (take3_eq q (by omega)).symm

/-- Round trip of one encoded line: decoding the `lineEncode` output of the
first `n` bytes recovers those bytes followed by `(3 - n % 3) % 3` zero
padding bytes. -/
theorem lineEncode_rt (q : List Nat) (n : Nat) (g : Bool) (hn : n ≤ q.length)
    (hb : ∀ b ∈ q, b < 256) :
    miniConvert (lineEncode q n g) = q.take n ++ List.replicate ((3 - n % 3) % 3) 0 := by
  unfold lineEncode
  by_cases hr : n % 3 > 0
  · rw [if_pos hr]
    rw [miniConvert_encGroups_append]
    have h3 : n - n % 3 = 3 * ((n - n % 3) / 3) := by omega
    rw [h3, encGroups_rt ((n - n % 3) / 3) q g (by omega) hb, ← h3]
    rcases (by omega : n % 3 = 1 ∨ n % 3 = 2) with h1 | h2
    · rw [h1]
      norm_num
      have hd0 : (q.drop (n - 1)).getD 0 0 < 256 := by
        rw [getD_drop]; exact getD_lt_256 hb _
      rw [mc_miniEncode2 _ g hd0]
      rw [getD_drop, show n - 1 + 0 = n - 1 by omega]
      rw [show ([q.getD (n - 1) 0, 0, 0] : List Nat) = [q.getD (n - 1) 0] ++ [0, 0] from rfl]
      rw [← List.append_assoc, take_concat_getD q (n - 1) (by omega),
        show n - 1 + 1 = n by omega]
      congr 1
    · rw [h2]
      norm_num
      have hd0 : (q.drop (n - 2)).getD 0 0 < 256 := by
        rw [getD_drop]; exact getD_lt_256 hb _
      have hd1 : (q.drop (n - 2)).getD 1 0 < 256 := by
        rw [getD_drop]; exact getD_lt_256 hb _
      rw [mc_miniEncode1 _ g hd0 hd1]
      rw [getD_drop, getD_drop, show n - 2 + 0 = n - 2 by omega,
        show n - 2 + 1 = n - 1 by omega]
      rw [show ([q.getD (n - 2) 0, q.getD (n - 1) 0, 0] : List Nat) =
        [q.getD (n - 2) 0] ++ ([q.getD (n - 1) 0] ++ [0]) from rfl]
      rw [← List.append_assoc, take_concat_getD q (n - 2) (by omega),
        show n - 2 + 1 = n - 1 by omega, ← List.append_assoc,
        take_concat_getD q (n - 1) (by omega), show n - 1 + 1 = n by omega]
  · rw [if_neg hr]
    have h3 : n = 3 * (n / 3) := by omega
    rw [h3, encGroups_rt (n / 3) q g (by omega) hb, ← h3]
    have hz : (3 - n % 3) % 3 = 0 := by omega
    rw [hz]
    simp

theorem shr2_63 : ∀ y ≤ 252, y >>> 2 < 64 := by decide

theorem shl4_63 : ∀ y ≤ 3, y <<< 4 < 64 := by decide

theorem shr4_16 : ∀ y ≤ 240, y >>> 4 < 16 := by decide

theorem shl2_63 : ∀ y ≤ 15, y <<< 2 < 64 := by decide

theorem shr6_4 : ∀ y ≤ 192, y >>> 6 < 4 := by decide

theorem or_lt_64 {a b : Nat} (ha : a < 64) (hb : b < 64) : a ||| b < 64 := by
  have h : (64 : Nat) = 2 ^ 6 := rfl
  rw [h] at *
  exact Nat.or_lt_two_pow ha hb

theorem ite_lt_64 {P : Prop} [Decidable P] {a : Nat} (h : a < 64) :
    (if P then a else 0) < 64 := by split <;> omega

theorem grav_range (g : Bool) (v : Nat) (hv : v < 64) :
    32 ≤ grav g (v + 32) ∧ grav g (v + 32) ≤ 96 := by
  unfold grav; split <;> omega

/-- Every byte emitted by `miniEncode` lies in the printable range
0x20..0x60; in particular it is neither a newline nor a carriage return. -/
theorem miniEncode_chars (src : List Nat) (n : Nat) (g : Bool) :
    ∀ c ∈ miniEncode src n g, 32 ≤ c ∧ c ≤ 96 := by
  intro c hc
  unfold miniEncode at hc
  simp only [List.mem_cons, List.not_mem_nil, or_false] at hc
  have hA0 : (src.getD 0 0 &&& 0xfc) >>> 2 < 64 := shr2_63 _ Nat.and_le_right
  have hA1 : ((src.getD 0 0 &&& 0x03) <<< 4 |||
      (if n < 2 then (src.getD 1 0 &&& 0xf0) >>> 4 else 0)) < 64 :=
    or_lt_64 (shl4_63 _ Nat.and_le_right)
      (ite_lt_64 (lt_trans (shr4_16 _ Nat.and_le_right) (by norm_num)))
  have hA2 : ((if n < 2 then (src.getD 1 0 &&& 0x0f) <<< 2 else 0) |||
      (if n < 1 then (src.getD 2 0 &&& 0xc0) >>> 6 else 0)) < 64 :=
    or_lt_64 (ite_lt_64 (shl2_63 _ Nat.and_le_right))
      (ite_lt_64 (lt_trans (shr6_4 _ Nat.and_le_right) (by norm_num)))
  have hA3 : (if n < 1 then src.getD 2 0 &&& 0x3f else 0) < 64 := by
    have := Nat.and_le_right (n := src.getD 2 0) (m := 0x3f)
    split <;> omega
  rcases hc with h | h | h | h <;> subst h
  · exact grav_range g _ hA0
  · exact grav_range g _ hA1
  · exact grav_range g _ hA2
  · exact grav_range g _ hA3

theorem encGroups_chars (q : List Nat) (n : Nat) (g : Bool) :
    ∀ c ∈ encGroups q n g, 32 ≤ c ∧ c ≤ 96 := by
  induction q, n, g using encGroups.induct with
  | case1 q g => simp [encGroups]
  | case2 q n g hn ih =>
    rw [encGroups, if_neg hn]
    intro c hc
    rcases List.mem_append.mp hc with h | h
    · exact miniEncode_chars _ _ _ c h
    · exact ih c h

theorem lineEncode_chars (q : List Nat) (n : Nat) (g : Bool) :
    ∀ c ∈ lineEncode q n g, 32 ≤ c ∧ c ≤ 96 := by
  unfold lineEncode
  split
  · intro c hc
    rcases List.mem_append.mp hc with h | h
    · exact encGroups_chars _ _ _ c h
    · exact miniEncode_chars _ _ _ c h
  · exact encGroups_chars _ _ _

/-- Wrapper used by the transformer loops below: add `k` to the consumed
count of a transform result (the Go loops accumulate `nSrc` across
iterations). -/
def addConsumed (k : Nat) (r : List Nat × Nat × Res) : List Nat × Nat × Res :=
  (r.1, k + r.2.1, r.2.2)

/-- Go `uuBodyEnc.Transform`: emit one 61-byte line (marker `M` = 45+32 plus
60 encoded bytes) plus the end-of-line string per full 45-byte source chunk;
at `atEOF`, emit the final length-prefixed partial line followed by the
trailer `eol + grave + eol + "end" + eol`; otherwise ask for more source.
`dstLen` is the length of the destination slice handed to the Go method and
`out` the bytes already written into it; the returned count is the number of
source bytes consumed by this call. -/
def uuBodyEnc (g : Bool) (eol : List Nat) (dstLen : Nat) (out : List Nat)
    (src : List Nat) (atEOF : Bool) : List Nat × Nat × Res :=
  if h45 : 45 ≤ src.length then
    if dstLen - out.length < 61 + eol.length then (out, 0, .shortDst)
    else
      addConsumed 45 (uuBodyEnc g eol dstLen
        (out ++ 77 :: (lineEncode src 45 g ++ eol)) (src.drop 45) atEOF)
  else if atEOF then
    if dstLen - out.length <
        (src.length / 3 + (if src.length % 3 > 0 then 1 else 0)) * 4 + 1 +
        (eol ++ 96 :: (eol ++ [101, 110, 100] ++ eol)).length then
      (out, 0, .shortDst)
    else
      (out ++ (src.length + 32) :: (lineEncode src src.length g ++
        (eol ++ 96 :: (eol ++ [101, 110, 100] ++ eol))), src.length, .ok)
  else (out, 0, .shortSrc)
termination_by src.length
decreasing_by simp; omega

/-- The byte sequence `uuBodyEnc` produces for a whole payload `p` when the
destination is large enough and end-of-stream is signalled. -/
def encBody (p : List Nat) (g : Bool) (eol : List Nat) : List Nat :=
  if 45 ≤ p.length then
    (77 :: (lineEncode p 45 g ++ eol)) ++ encBody (p.drop 45) g eol
  else (p.length + 32) :: (lineEncode p p.length g ++
    (eol ++ 96 :: (eol ++ [101, 110, 100] ++ eol)))
termination_by p.length
decreasing_by simp; omega

theorem encBody_length_pos (p : List Nat) (g : Bool) (eol : List Nat) :
    0 < (encBody p g eol).length := by
  rw [encBody]
  split <;> simp

/-- A run of the body encoder to completion: with end-of-stream signalled and
enough room, everything is consumed and `encBody` is appended. -/
theorem uuBodyEnc_complete : ∀ (p : List Nat) (g : Bool) (eol : List Nat)
    (out : List Nat) (dstLen : Nat),
    out.length + (encBody p g eol).length ≤ dstLen →
    uuBodyEnc g eol dstLen out p true = (out ++ encBody p g eol, p.length, .ok) := by
  intro p g eol
  induction p, g, eol using encBody.induct with
  | case1 p g eol h45 ih =>
    intro out dstLen hd
    have hlen : (encBody p g eol).length =
        61 + eol.length + (encBody (p.drop 45) g eol).length := by
      rw [encBody, if_pos h45]
      simp [lineEncode_length]
      omega
    rw [hlen] at hd
    rw [uuBodyEnc, dif_pos h45, if_neg (by omega)]
    rw [ih (out ++ 77 :: (lineEncode p 45 g ++ eol)) dstLen
      (by simp only [List.length_append, List.length_cons, lineEncode_length]; omega)]
    conv_rhs => rw [encBody]
    rw [if_pos h45]
    unfold addConsumed
    simp only [List.length_drop]
    rw [show 45 + (p.length - 45) = p.length by omega]
    simp [List.append_assoc]
  | case2 p g eol h45 =>
    intro out dstLen hd
    have hlen : (encBody p g eol).length =
        1 + 4 * ((p.length + 2) / 3) + (3 * eol.length + 4) := by
      rw [encBody, if_neg h45]
      simp [lineEncode_length]
      omega
    rw [hlen] at hd
    rw [uuBodyEnc, dif_neg h45, if_pos rfl,
      if_neg (by simp only [List.length_append, List.length_cons, List.length_nil]; split <;> omega)]
    conv_rhs => rw [encBody]
    rw [if_neg h45]

/-- Prepend already-written destination bytes to a transform result (Go
`return nDst + m, n, err` after the header copy). -/
def addDst (pre : List Nat) (r : List Nat × Nat × Res) : List Nat × Nat × Res :=
  (pre ++ r.1, r.2.1, r.2.2)

/-- Go `Encode` transformer: header/body state plus configuration. -/
structure Encode where
  state : Nat
  permit : List Nat
  name : List Nat
  useGrave : Bool
  eol : List Nat
deriving DecidableEq, Repr

/-- Go `NewEncode`: `option[0]` is the file name, `option[1]` the permission
bits; the defaults are the ASCII bytes of `filename` and of `644`. -/
def newEncode (useGrave : Bool) (eol : List Nat) (option : List (List Nat)) : Encode where
  state := 0
  permit := if option.length > 1 then option.getD 1 [] else [54, 52, 52]
  name := if option.length > 0 then option.getD 0 []
    else [102, 105, 108, 101, 110, 97, 109, 101]
  useGrave := useGrave
  eol := eol

/-- The header line `begin <permit> <name><eol>` built by `Encode.Transform`
(`fmt.Sprint(uuBeginMarker, " ", e.permit, " ", e.name, e.eol)`). -/
def startLine (e : Encode) : List Nat :=
  [98, 101, 103, 105, 110, 32] ++ e.permit ++ [32] ++ e.name ++ e.eol

/-- Go `Encode.Transform`: in state `uuStart` emit the header line first (or
report a short destination without consuming anything) and move to `uuBody`,
then hand the remaining destination to the body encoder. -/
def encodeTransform (e : Encode) (dstLen : Nat) (src : List Nat) (atEOF : Bool) :
    Encode × (List Nat × Nat × Res) :=
  if e.state = 0 then
    if (startLine e).length > dstLen then (e, ([], 0, .shortDst))
    else
      ({e with state := 1},
       addDst (startLine e)
         (uuBodyEnc e.useGrave e.eol (dstLen - (startLine e).length) [] src atEOF))
  else (e, uuBodyEnc e.useGrave e.eol dstLen [] src atEOF)

/-- A complete encode call: with end-of-stream signalled and enough room the
whole payload is consumed and the output is the header followed by the body. -/
theorem encodeTransform_complete (e : Encode) (p : List Nat) (dstLen : Nat)
    (h0 : e.state = 0)
    (hd : (startLine e).length + (encBody p e.useGrave e.eol).length ≤ dstLen) :
    encodeTransform e dstLen p true =
      ({e with state := 1},
       (startLine e ++ encBody p e.useGrave e.eol, p.length, .ok)) := by
  unfold encodeTransform
  rw [if_pos h0, if_neg (by omega)]
  rw [uuBodyEnc_complete p e.useGrave e.eol [] (dstLen - (startLine e).length)
    (by simp; omega)]
  unfold addDst
  simp

/-- Strip one trailing carriage return from a line, as the Go code does with
`if b[linelen-1] == '\r' { b = b[:linelen-1] }`. -/
def stripCR (b : List Nat) : List Nat := if b.getLastD 0 = 13 then b.dropLast else b

/-- Decision taken by one iteration of the Go `uuBodyDec.Transform` loop:
finish because the source is exhausted (`done`), return to the caller with a
relative consumed count and a result (`ret`), hit a run-time panic
(`panic`), or append `dec` decoded bytes, consume `consumed` source bytes
and continue with the rest (`cont`). -/
inductive BodyStep where
  | done
  | ret (c : Nat) (r : Res)
  | panic
  | cont (dec : List Nat) (consumed : Nat) (after : List Nat)
deriving DecidableEq, Repr

/-- The data-line part of the Go `uuBodyDec.Transform` loop body: strip a
trailing carriage return, validate the length/padding accounting of line `b`
and either fail, report a short destination, panic (`miniConvert` would
write past the destination slice: the Go short-destination guard compares
against the whole slice length `len(dst)`, not the remaining space), or
decode and keep the first `b[0]-0x20` bytes. -/
def uuDataStep (dstLen outLen : Nat) (b after : List Nat) : BodyStep :=
  if ((stripCR b).length - 1) % 4 = 0 then
    if ((stripCR b).length - 1) / 4 * 3 > dstLen then .ret 0 .shortDst
    else if ((stripCR b).length - 1) / 4 * 3 < b.headD 0 - 32 then .ret 0 .badUUDec
    else if ((stripCR b).length - 1) / 4 * 3 - (b.headD 0 - 32) > 2 then .ret 0 .badUUDec
    else if ((stripCR b).length - 1) / 4 * 3 > dstLen - outLen then .panic
    else .cont ((miniConvert ((stripCR b).drop 1)).take (b.headD 0 - 32)) (b.length + 1) after
  else .ret 0 .badUUDec

/-- The trailer part of the Go `uuBodyDec.Transform` loop body, entered on a
line starting with the grave marker: the next line must be the literal
`end` (with optional carriage return); without a newline, an `end` exactly
at `atEOF` also terminates.  Indexing an empty next line panics
(`b[linelen-1]` with `linelen = 0`). -/
def uuTrailerStep (srcLen : Nat) (after : List Nat) (atEOF : Bool) (blen : Nat) : BodyStep :=
  match splitNL after with
  | none =>
    if atEOF ∧ after = [101, 110, 100] then .ret srcLen .foundEOF
    else .ret 0 .shortSrc
  | some (b2, _) =>
    if b2 = [] then .panic
    else if stripCR b2 = [101, 110, 100] then
      .ret (blen + 1 + (b2.length + 1)) .foundEOF
    else .ret (blen + 1 + (b2.length + 1)) .badUUDec

/-- One iteration of Go `uuBodyDec.Transform`, classifying the first line of
`src`.  `dstLen` is the length of the destination slice of the call and
`outLen` the number of bytes already written by the call (`nDst`).  A line
is found by scanning for the next newline; an unterminated tail longer than
64 bytes is `ErrBadLen`; an empty line makes the Go code panic at `b[0]`;
a grave first byte enters the trailer logic; a first byte outside
0x20..0x60 is `ErrBadUUDec`; otherwise the line is decoded. -/
def uuBodyStep (dstLen outLen : Nat) (src : List Nat) (atEOF : Bool) : BodyStep :=
  if src.length = 0 then .done
  else
    match splitNL src with
    | none => if src.length > 64 then .ret 0 .badLen else .ret 0 .shortSrc
    | some (b, after) =>
      if b = [] then .panic
      else if b.headD 0 = 96 then uuTrailerStep src.length after atEOF b.length
      else if b.headD 0 < 32 ∨ 96 < b.headD 0 then .ret 0 .badUUDec
      else uuDataStep dstLen outLen b after

theorem uuDataStep_cont {dstLen outLen : Nat} {b aft dec : List Nat} {c : Nat}
    {after : List Nat} (h : uuDataStep dstLen outLen b aft = .cont dec c after) :
    c = b.length + 1 ∧ after = aft := by
  unfold uuDataStep at h
  split_ifs at h <;> cases h <;> exact ⟨rfl, rfl⟩

theorem uuDataStep_no_retEOF {dstLen outLen : Nat} {b aft : List Nat} {c : Nat}
    (h : uuDataStep dstLen outLen b aft = .ret c .foundEOF) : False := by
  unfold uuDataStep at h
  split_ifs at h <;> cases h

theorem uuTrailerStep_no_cont {srcLen blen : Nat} {after dec aft2 : List Nat}
    {atEOF : Bool} {c : Nat}
    (h : uuTrailerStep srcLen after atEOF blen = .cont dec c aft2) : False := by
  unfold uuTrailerStep at h
  rcases hnl : splitNL after with _ | ⟨b2, t2⟩ <;> rw [hnl] at h <;>
    simp only [] at h <;> split_ifs at h <;> cases h

theorem uuTrailerStep_retEOF {srcLen blen : Nat} {after : List Nat} {atEOF : Bool}
    {c : Nat} (hrel : blen + 1 + after.length = srcLen)
    (h : uuTrailerStep srcLen after atEOF blen = .ret c .foundEOF) :
    1 ≤ c ∧ c ≤ srcLen := by
  unfold uuTrailerStep at h
  rcases hnl : splitNL after with _ | ⟨b2, t2⟩ <;> rw [hnl] at h <;> simp only [] at h
  · split_ifs at h <;> cases h
    exact ⟨by omega, by omega⟩
  · have hl2 := splitNL_line_len hnl
    split_ifs at h <;> cases h
    exact ⟨by omega, by omega⟩

theorem uuBodyStep_cont_spec {dstLen outLen : Nat} {src : List Nat} {atEOF : Bool}
    {dec : List Nat} {c : Nat} {after : List Nat}
    (h : uuBodyStep dstLen outLen src atEOF = .cont dec c after) :
    c + after.length = src.length ∧ 1 ≤ c := by
  unfold uuBodyStep at h
  by_cases h0 : src.length = 0
  · rw [if_pos h0] at h; cases h
  · rw [if_neg h0] at h
    rcases hnl : splitNL src with _ | ⟨b, aft⟩ <;> rw [hnl] at h <;> simp only [] at h
    · split_ifs at h <;> cases h
    · have hblen := splitNL_line_len hnl
      split_ifs at h
      all_goals first
        | cases h
        | exact absurd h uuTrailerStep_no_cont
        | (obtain ⟨hc, ha⟩ := uuDataStep_cont h
           subst hc; subst ha
           exact ⟨by omega, by omega⟩)

theorem uuBodyStep_retEOF_spec {dstLen outLen : Nat} {src : List Nat} {atEOF : Bool}
    {c : Nat} (h : uuBodyStep dstLen outLen src atEOF = .ret c .foundEOF) :
    1 ≤ c ∧ c ≤ src.length := by
  unfold uuBodyStep at h
  by_cases h0 : src.length = 0
  · rw [if_pos h0] at h; cases h
  · rw [if_neg h0] at h
    rcases hnl : splitNL src with _ | ⟨b, aft⟩ <;> rw [hnl] at h <;> simp only [] at h
    · split_ifs at h <;> cases h
    · have hblen := splitNL_line_len hnl
      split_ifs at h
      all_goals first
        | cases h
        | exact uuTrailerStep_retEOF hblen h
        | exact absurd h uuDataStep_no_retEOF

/-- Go `uuBodyDec.Transform`: iterate `uuBodyStep` over the lines of `src`.
`out` is the content the call has written into the destination so far
(`nDst = out.length`); `none` models a run-time panic of the Go code. -/
def uuBodyDec (dstLen : Nat) (out : List Nat) (src : List Nat) (atEOF : Bool) :
    Option (List Nat × Nat × Res) :=
  match hs : uuBodyStep dstLen out.length src atEOF with
  | .done => some (out, 0, .ok)
  | .ret c r => some (out, c, r)
  | .panic => none
  | .cont dec consumed after =>
      (uuBodyDec dstLen (out ++ dec) after atEOF).map
        (fun r => (r.1, consumed + r.2.1, r.2.2))
termination_by src.length
decreasing_by have := uuBodyStep_cont_spec hs; omega

theorem uuBodyDec_nil (dstLen : Nat) (out : List Nat) (atEOF : Bool) :
    uuBodyDec dstLen out [] atEOF = some (out, 0, .ok) := by
  rw [uuBodyDec]
  split
  · rfl
  all_goals (rename_i hs; simp [uuBodyStep] at hs)

theorem uuBodyDec_foundEOF_aux : ∀ (n : Nat) (src : List Nat), src.length ≤ n →
    ∀ {out : List Nat} {dstLen : Nat} {atEOF : Bool} {o2 : List Nat} {c : Nat},
    uuBodyDec dstLen out src atEOF = some (o2, c, .foundEOF) →
    1 ≤ c ∧ c ≤ src.length := by
  intro n
  induction n with
  | zero =>
    intro src hl out dstLen atEOF o2 c h
    have : src = [] := by
      cases src with
      | nil => rfl
      | cons a t => simp at hl
    subst this
    rw [uuBodyDec_nil] at h
    cases h
  | succ m ih =>
    intro src hl out dstLen atEOF o2 c h
    rw [uuBodyDec] at h
    split at h
    · cases h
    · rename_i c2 r hs
      cases h
      exact uuBodyStep_retEOF_spec hs
    · cases h
    · rename_i dec consumed after hs
      have hcs := uuBodyStep_cont_spec hs
      rw [Option.map_eq_some'] at h
      obtain ⟨⟨o3, c3, r3⟩, hin, heq⟩ := h
      simp only [Prod.mk.injEq] at heq
      obtain ⟨ho, hc, hr⟩ := heq
      subst hr
      have := ih after (by omega) hin
      omega

theorem uuBodyDec_step_ret {dstLen : Nat} {out src : List Nat} {atEOF : Bool}
    {c : Nat} {r : Res} (hs : uuBodyStep dstLen out.length src atEOF = .ret c r) :
    uuBodyDec dstLen out src atEOF = some (out, c, r) := by
  rw [uuBodyDec]
  split <;> rename_i hs2 <;> rw [hs2] at hs <;> cases hs <;> rfl

theorem uuBodyDec_step_panic {dstLen : Nat} {out src : List Nat} {atEOF : Bool}
    (hs : uuBodyStep dstLen out.length src atEOF = .panic) :
    uuBodyDec dstLen out src atEOF = none := by
  rw [uuBodyDec]
  split <;> rename_i hs2 <;> rw [hs2] at hs <;> cases hs <;> rfl

theorem uuBodyDec_step_cont {dstLen : Nat} {out src dec after : List Nat}
    {atEOF : Bool} {k : Nat}
    (hs : uuBodyStep dstLen out.length src atEOF = .cont dec k after) :
    uuBodyDec dstLen out src atEOF =
      (uuBodyDec dstLen (out ++ dec) after atEOF).map
        (fun r => (r.1, k + r.2.1, r.2.2)) := by
  rw [uuBodyDec]
  split <;> rename_i hs2 <;> rw [hs2] at hs <;> cases hs <;> rfl

theorem stripCR_noCR {b : List Nat} (hb : b.getLastD 0 ≠ 13) : stripCR b = b := by
  unfold stripCR; rw [if_neg hb]

theorem stripCR_concat13 (l : List Nat) : stripCR (l ++ [13]) = l := by
  unfold stripCR
  rw [if_pos (by rw [List.getLastD_concat])]
  exact List.dropLast_concat

theorem cons_getLastD_ne13 {a : Nat} {data : List Nat} (hne : a ≠ 13)
    (hd : data.getLastD 0 ≠ 13) : (a :: data).getLastD 0 ≠ 13 := by
  cases data with
  | nil => simpa using hne
  | cons x t =>
    rw [List.getLastD_cons] at hd
    rw [List.getLastD_cons, List.getLastD_cons]
    exact hd

/-- The data-line step accepts a line whose stripped form is `lb :: data`
with consistent length/padding accounting, keeping `lb - 32` decoded bytes. -/
theorem uuDataStep_accept {dstLen outLen : Nat} {b after : List Nat} {lb : Nat}
    {data : List Nat}
    (hstrip : stripCR b = lb :: data) (hhead : b.headD 0 = lb)
    (hk : data.length % 4 = 0)
    (hN : lb - 32 ≤ data.length / 4 * 3)
    (hpad : data.length / 4 * 3 - (lb - 32) ≤ 2)
    (hdst : data.length / 4 * 3 ≤ dstLen - outLen)
    (hdst2 : data.length / 4 * 3 ≤ dstLen) :
    uuDataStep dstLen outLen b after =
      .cont ((miniConvert data).take (lb - 32)) (b.length + 1) after := by
  unfold uuDataStep
  rw [hstrip, hhead]
  simp only [List.length_cons, Nat.add_sub_cancel, List.drop_one, List.tail_cons]
  rw [if_pos hk, if_neg (by omega), if_neg (by omega), if_neg (by omega),
    if_neg (by omega)]

/-- Classification of a well-formed terminated data line inside the body:
the acceptance checks pass and the decoded bytes are kept. -/
theorem uuBodyStep_data {lb : Nat} {data eol rest : List Nat} {dstLen outLen : Nat}
    {atEOF : Bool}
    (he : eol = [10] ∨ eol = [13, 10])
    (h1 : 32 ≤ lb) (h2 : lb < 96)
    (hd10 : (10 : Nat) ∉ data) (hd13 : data.getLastD 0 ≠ 13)
    (hk : data.length % 4 = 0)
    (hN : lb - 32 ≤ data.length / 4 * 3)
    (hpad : data.length / 4 * 3 - (lb - 32) ≤ 2)
    (hdst : data.length / 4 * 3 ≤ dstLen - outLen)
    (hdst2 : data.length / 4 * 3 ≤ dstLen) :
    uuBodyStep dstLen outLen ((lb :: data) ++ eol ++ rest) atEOF =
      .cont ((miniConvert data).take (lb - 32)) (data.length + 1 + eol.length) rest := by
  have hb10 : (10 : Nat) ∉ lb :: data := by
    simp only [List.mem_cons, not_or]
    exact ⟨by omega, hd10⟩
  have main : ∀ b : List Nat, splitNL ((lb :: data) ++ eol ++ rest) = some (b, rest) →
      b ≠ [] → b.headD 0 = lb → stripCR b = lb :: data →
      b.length + 1 = data.length + 1 + eol.length →
      uuBodyStep dstLen outLen ((lb :: data) ++ eol ++ rest) atEOF =
        .cont ((miniConvert data).take (lb - 32)) (data.length + 1 + eol.length) rest := by
    intro b hsp hne hh hs hlen
    unfold uuBodyStep
    rw [if_neg (by simp), hsp]
    simp only []
    rw [if_neg hne, hh, if_neg (by omega), if_neg (by omega)]
    rw [uuDataStep_accept hs hh hk hN hpad hdst hdst2, hlen]
  rcases he with he | he <;> subst he
  · refine main (lb :: data) ?_ (by simp) (by simp) ?_ (by simp)
    · rw [List.append_assoc]
      exact splitNL_append hb10
    · exact stripCR_noCR (cons_getLastD_ne13 (by omega) hd13)
  · refine main ((lb :: data) ++ [13]) ?_ (by simp) (by simp) ?_ (by simp)
    · rw [show (lb :: data) ++ [13, 10] ++ rest = ((lb :: data) ++ [13]) ++ 10 :: rest
        by simp]
      exact splitNL_append (by
        simp only [List.mem_append, not_or]
        exact ⟨hb10, by simp⟩)
    · exact stripCR_concat13 (lb :: data)

/-- Classification of the section trailer grave line plus `end` line as left
after the final data line has been consumed. -/
theorem uuBodyStep_trailer (dstLen outLen : Nat) (atEOF : Bool) (eol : List Nat)
    (he : eol = [10] ∨ eol = [13, 10]) :
    uuBodyStep dstLen outLen (96 :: (eol ++ [101, 110, 100] ++ eol)) atEOF =
      .ret (2 * eol.length + 4) .foundEOF := by
  rcases he with he | he <;> subst he <;>
    simp [uuBodyStep, uuTrailerStep, splitNL, stripCR]

theorem getLastD_ge32 : ∀ (l : List Nat) (d : Nat), 32 ≤ d → (∀ c ∈ l, 32 ≤ c) →
    32 ≤ l.getLastD d
  | [], _, hd, _ => hd
  | a :: t, d, _, h => by
      rw [List.getLastD_cons]
      exact getLastD_ge32 t a (h a (by simp)) (fun c hc => h c (by simp [hc]))

theorem getLastD0_ne13 (l : List Nat) (h : ∀ c ∈ l, 32 ≤ c) : l.getLastD 0 ≠ 13 := by
  cases l with
  | nil => simp
  | cons a t =>
    rw [List.getLastD_cons]
    have h32 := getLastD_ge32 t a (h a (by simp)) (fun c hc => h c (by simp [hc]))
    omega

/-- Decoding the encoded body of payload `p` recovers exactly `p`, consumes
the whole body and reports the end-of-section marker. -/
theorem uuBodyDec_encBody : ∀ (p : List Nat) (g : Bool) (eol : List Nat),
    (eol = [10] ∨ eol = [13, 10]) → (∀ b ∈ p, b < 256) →
    ∀ (out : List Nat) (dstLen : Nat) (atEOF : Bool),
    out.length + p.length + 2 ≤ dstLen →
    uuBodyDec dstLen out (encBody p g eol) atEOF =
      some (out ++ p, (encBody p g eol).length, .foundEOF) := by
  intro p g eol
  induction p, g, eol using encBody.induct with
  | case1 p g eol h45 ih =>
    intro he hb out dstLen atEOF hd
    have hdata10 : (10 : Nat) ∉ lineEncode p 45 g := fun hmem => by
      have := lineEncode_chars p 45 g 10 hmem; omega
    have hdata13 : (lineEncode p 45 g).getLastD 0 ≠ 13 :=
      getLastD0_ne13 _ (fun c hc => (lineEncode_chars p 45 g c hc).1)
    have hlen60 : (lineEncode p 45 g).length = 60 := by rw [lineEncode_length]
    have hshape : encBody p g eol =
        (77 :: lineEncode p 45 g) ++ eol ++ encBody (p.drop 45) g eol := by
      rw [encBody, if_pos h45]; simp
    rw [hshape]
    have hstep := @uuBodyStep_data 77 (lineEncode p 45 g) eol
      (encBody (p.drop 45) g eol) dstLen out.length
      atEOF he (by omega) (by omega) hdata10 hdata13
      (by simp [hlen60]) (by simp [hlen60]) (by simp [hlen60])
      (by rw [hlen60]; omega) (by rw [hlen60]; omega)
    rw [uuBodyDec_step_cont hstep]
    have hdec : (miniConvert (lineEncode p 45 g)).take (77 - 32) = p.take 45 := by
      rw [lineEncode_rt p 45 g (by omega) hb]
      norm_num
    rw [hdec]
    rw [ih he (fun b hb2 => hb b (List.mem_of_mem_drop hb2)) (out ++ p.take 45) dstLen
      atEOF (by simp only [List.length_append, List.length_take, List.length_drop]; omega)]
    rw [Option.map_some']
    simp only [Option.some.injEq, Prod.mk.injEq, and_true, true_and, List.append_assoc,
      List.take_append_drop, List.length_cons, List.length_append, hlen60]
    try omega
  | case2 p g eol h45 =>
    intro he hb out dstLen atEOF hd
    have hdata10 : (10 : Nat) ∉ lineEncode p p.length g := fun hmem => by
      have := lineEncode_chars p p.length g 10 hmem; omega
    have hdata13 : (lineEncode p p.length g).getLastD 0 ≠ 13 :=
      getLastD0_ne13 _ (fun c hc => (lineEncode_chars p p.length g c hc).1)
    have hlenle : (lineEncode p p.length g).length = 4 * ((p.length + 2) / 3) := by
      rw [lineEncode_length]
    have hshape : encBody p g eol =
        ((p.length + 32) :: lineEncode p p.length g) ++ eol ++
          (96 :: (eol ++ [101, 110, 100] ++ eol)) := by
      rw [encBody, if_neg h45]; simp
    rw [hshape]
    have hstep := @uuBodyStep_data (p.length + 32) (lineEncode p p.length g) eol
      (96 :: (eol ++ [101, 110, 100] ++ eol)) dstLen
      out.length atEOF he (by omega) (by omega) hdata10 hdata13
      (by rw [hlenle]; omega) (by rw [hlenle]; omega) (by rw [hlenle]; omega)
      (by rw [hlenle]; omega) (by rw [hlenle]; omega)
    rw [uuBodyDec_step_cont hstep]
    have hdec : (miniConvert (lineEncode p p.length g)).take (p.length + 32 - 32) = p := by
      rw [lineEncode_rt p p.length g (by omega) hb]
      rw [show p.length + 32 - 32 = p.length by omega]
      rw [List.take_append_of_le_length (by simp)]
      simp
    rw [hdec]
    rw [uuBodyDec_step_ret (uuBodyStep_trailer dstLen (out ++ p).length atEOF eol he)]
    rw [Option.map_some']
    simp only [Option.some.injEq, Prod.mk.injEq, and_true, true_and, List.append_assoc,
      List.length_cons, List.length_append, List.length_nil, hlenle]
    try omega

/-- All bytes are ASCII digits (Go loop `ch -= '0'; if ch > 9`). -/
def allDigits (l : List Nat) : Bool := l.all (fun c => decide (48 ≤ c ∧ c ≤ 57))

/-- Numeric value of a digit string (most significant first). -/
def digitsVal (l : List Nat) : Nat := l.foldl (fun a c => a * 10 + (c - 48)) 0

/-- Success predicate of Go `strconv.Atoi` on a byte string: an optional
sign followed by at least one digit, all digits, with the value fitting a
64-bit `int` (magnitude at most `2^63 - 1`, or `2^63` for a negative). -/
def atoiOk (s : List Nat) : Bool :=
  match s with
  | [] => false
  | c :: rest =>
    if c = 45 ∨ c = 43 then
      !rest.isEmpty && allDigits rest &&
        decide (digitsVal rest ≤ if c = 45 then 2 ^ 63 else 2 ^ 63 - 1)
    else allDigits s && decide (digitsVal s ≤ 2 ^ 63 - 1)

/-- The ASCII bytes of `begin`. -/
def beginMarker : List Nat := [98, 101, 103, 105, 110]

/-- The metadata updates of the Go header parse
(`as := strings.Split(string(begin), " ")`): the third field becomes the
Filename when it exists, the second becomes the Permission when it parses
as an integer; a `none` leaves the previous value in place. -/
def parseBeginFields (b : List Nat) : Option (List Nat) × Option (List Nat) :=
  (if 1 < (b.splitOn 32).length ∧ atoiOk ((b.splitOn 32).getD 1 []) = true then
    some ((b.splitOn 32).getD 1 []) else none,
   if 2 < (b.splitOn 32).length then some ((b.splitOn 32).getD 2 []) else none)

/-- Decision of one iteration of the header-seeking loop in Go
`Decode.Transform` (state `uuStart`): a `begin`-prefixed line is the header
(`hdr`), a line without newline stops the call (order of the Go checks:
accumulated consumption first, then the `begin` prefix for `ErrBadLen`
versus `ErrBadUUDec`), a non-matching line is copied to the destination
when it fits (`copy`) or stops with a short destination. -/
inductive SeekStep where
  | hdr (b : List Nat) (consumed : Nat)
  | stop (res : Res)
  | copy (line : List Nat) (after : List Nat)
deriving DecidableEq, Repr

def seekStep (dstLen accLen nSrc0 : Nat) (src : List Nat) : SeekStep :=
  match splitNL src with
  | none =>
    if nSrc0 ≠ 0 then .stop .shortSrc
    else if beginMarker.isPrefixOf src then .stop .badLen
    else .stop .badUUDec
  | some (b, after) =>
    if beginMarker.isPrefixOf b then .hdr b (b.length + 1)
    else if dstLen - accLen < b.length + 1 then .stop .shortDst
    else .copy b after

theorem seekStep_copy_spec {dstLen accLen nSrc0 : Nat} {src line after : List Nat}
    (h : seekStep dstLen accLen nSrc0 src = .copy line after) :
    line.length + 1 + after.length = src.length := by
  unfold seekStep at h
  rcases hnl : splitNL src with _ | ⟨b, aft⟩ <;> rw [hnl] at h <;> simp only [] at h
  · split_ifs at h <;> cases h
  · have := splitNL_line_len hnl
    split_ifs at h <;> cases h
    omega

theorem seekStep_hdr_spec {dstLen accLen nSrc0 : Nat} {src b : List Nat} {c : Nat}
    (h : seekStep dstLen accLen nSrc0 src = .hdr b c) :
    1 ≤ c ∧ c ≤ src.length := by
  unfold seekStep at h
  rcases hnl : splitNL src with _ | ⟨b2, aft⟩ <;> rw [hnl] at h <;> simp only [] at h
  · split_ifs at h <;> cases h
  · have := splitNL_line_len hnl
    split_ifs at h <;> cases h
    omega

/-- Result of the header-seeking phase: a header found (with destination
bytes copied so far, consumed source count and metadata updates) or a stop
with a result code. -/
inductive SeekR where
  | found (dst : List Nat) (consumed : Nat) (pf : Option (List Nat) × Option (List Nat))
  | stop (dst : List Nat) (consumed : Nat) (res : Res)
deriving DecidableEq, Repr

/-- The header-seeking loop of Go `Decode.Transform` (state `uuStart`):
scan lines for a `begin` prefix, copying non-matching lines (with their
newline) into the destination; on a match, strip a trailing carriage
return and parse the metadata fields. -/
def seekHeader (dstLen : Nat) (accDst : List Nat) (nSrc0 : Nat) (src : List Nat) : SeekR :=
  match hs : seekStep dstLen accDst.length nSrc0 src with
  | .hdr b c => .found accDst c (parseBeginFields (stripCR b))
  | .stop r => .stop accDst 0 r
  | .copy line after =>
    match seekHeader dstLen (accDst ++ line ++ [10]) (nSrc0 + (line.length + 1)) after with
    | .found d c pf => .found d (line.length + 1 + c) pf
    | .stop d c r => .stop d (line.length + 1 + c) r
termination_by src.length
decreasing_by have := seekStep_copy_spec hs; omega

theorem seekHeader_found_spec : ∀ (n : Nat) (src : List Nat), src.length ≤ n →
    ∀ {dstLen nSrc0 : Nat} {accDst d : List Nat} {c : Nat}
    {pf : Option (List Nat) × Option (List Nat)},
    seekHeader dstLen accDst nSrc0 src = .found d c pf →
    1 ≤ c ∧ c ≤ src.length := by
  intro n
  induction n with
  | zero =>
    intro src hl dstLen nSrc0 accDst d c pf h
    rw [seekHeader] at h
    split at h
    · rename_i b c2 hs
      cases h
      exact seekStep_hdr_spec hs
    · cases h
    · rename_i line after hs
      have := seekStep_copy_spec hs
      omega
  | succ m ih =>
    intro src hl dstLen nSrc0 accDst d c pf h
    rw [seekHeader] at h
    split at h
    · rename_i b c2 hs
      cases h
      exact seekStep_hdr_spec hs
    · cases h
    · rename_i line after hs
      have hcs := seekStep_copy_spec hs
      split at h
      · rename_i d2 c2 pf2 hin
        cases h
        have := ih after (by omega) hin
        exact ⟨by omega, by omega⟩
      · cases h

/-- Go `Decode` transformer state: the state-machine position, the mode
flag set by `NewMultiDecode`, and the recorded section metadata. -/
structure Decode where
  state : Nat
  multi : Bool
  Filename : List Nat
  Permission : List Nat
deriving DecidableEq, Repr

/-- The driving loop of Go `Decode.Transform` after the empty-source check.
The concurrency of multi mode is modelled by a fully cooperative
environment: the section-handle send and every pipe write succeed at once
and no cancellation fires, so in multi mode decoded body bytes are
appended to `pipeOut` (the concatenation of all section pipes) and the
destination cursor does not advance, while in single mode they go to the
destination; lines scanned while seeking a header are copied to the
destination in both modes, exactly as the Go code does.  `consumed`
accumulates `nSrc` across the loop; `none` propagates a body panic. -/
def decodeLoop (multi : Bool) (dstLen : Nat) (fname perm : List Nat)
    (accDst pipeOut : List Nat) (consumed : Nat) (src : List Nat) (atEOF : Bool)
    (state : Nat) : Option (Decode × List Nat × List Nat × Nat × Res) :=
  if state = 0 then
    match hsk : seekHeader dstLen accDst consumed src with
    | .stop d c r => some (⟨0, multi, fname, perm⟩, d, pipeOut, consumed + c, r)
    | .found d c pf =>
      decodeLoop multi dstLen (pf.2.getD fname) (pf.1.getD perm) d pipeOut
        (consumed + c) (src.drop c) atEOF 1
  else if state = 1 then
    match hbd : uuBodyDec (dstLen - accDst.length) [] src atEOF with
    | none => none
    | some (out, c, r) =>
      if hr : r = .foundEOF then
        if multi then
          decodeLoop multi dstLen fname perm accDst (pipeOut ++ out) (consumed + c)
            (src.drop c) atEOF 0
        else
          decodeLoop multi dstLen fname perm (accDst ++ out) pipeOut (consumed + c)
            (src.drop c) atEOF 2
      else
        some (⟨1, multi, fname, perm⟩,
          if multi then accDst else accDst ++ out,
          if multi then pipeOut ++ out else pipeOut, consumed + c, r)
  else
    if src.length > dstLen - accDst.length then
      some (⟨state, multi, fname, perm⟩, accDst ++ src.take (dstLen - accDst.length),
        pipeOut, consumed + (dstLen - accDst.length), .shortDst)
    else some (⟨state, multi, fname, perm⟩, accDst ++ src, pipeOut,
      consumed + src.length, .ok)
termination_by (src.length, state + 1)
decreasing_by
  · have := seekHeader_found_spec src.length src (le_refl _) hsk
    have h2 : (src.drop c).length = src.length - c := by simp
    exact Prod.Lex.left _ _ (by omega)
  · subst hr
    have := uuBodyDec_foundEOF_aux src.length src (le_refl _) hbd
    have h2 : (src.drop c).length = src.length - c := by simp
    exact Prod.Lex.left _ _ (by omega)
  · subst hr
    have := uuBodyDec_foundEOF_aux src.length src (le_refl _) hbd
    have h2 : (src.drop c).length = src.length - c := by simp
    exact Prod.Lex.left _ _ (by omega)

/-- Go `Decode.Transform`: with an empty source window the call succeeds
only in the terminal state (or in multi mode still seeking a header);
otherwise the state-machine loop runs.  The five results are the final
state, the destination bytes, the pipe bytes (multi mode), the consumed
source count and the result code. -/
def decodeTransform (d : Decode) (dstLen : Nat) (src : List Nat) (atEOF : Bool) :
    Option (Decode × List Nat × List Nat × Nat × Res) :=
  if src.length = 0 then
    if d.state = 2 ∨ (d.multi ∧ d.state = 0) then some (d, [], [], 0, .ok)
    else some (d, [], [], 0, .badUUDec)
  else decodeLoop d.multi dstLen d.Filename d.Permission [] [] 0 src atEOF d.state

/-- Go `NewDecode`: a fresh single-section decoder. -/
def newDecode : Decode := ⟨0, false, [], []⟩

/-- The Go `NewMultiDecode` decoder value (the returned cancel function and
channel are modelled separately). -/
def newMultiDecode : Decode := ⟨0, true, [], []⟩

theorem decodeLoop_seek_stop {multi : Bool} {dstLen : Nat} {fname perm accDst pipeOut : List Nat}
    {consumed : Nat} {src : List Nat} {atEOF : Bool} {d : List Nat} {c : Nat} {r : Res}
    (hsk : seekHeader dstLen accDst consumed src = .stop d c r) :
    decodeLoop multi dstLen fname perm accDst pipeOut consumed src atEOF 0 =
      some (⟨0, multi, fname, perm⟩, d, pipeOut, consumed + c, r) := by
  rw [decodeLoop, if_pos rfl]
  split <;> rename_i hs2 <;> rw [hs2] at hsk <;> cases hsk <;> rfl

theorem decodeLoop_seek_found {multi : Bool} {dstLen : Nat}
    {fname perm accDst pipeOut : List Nat} {consumed : Nat} {src : List Nat} {atEOF : Bool}
    {d : List Nat} {c : Nat} {pf : Option (List Nat) × Option (List Nat)}
    (hsk : seekHeader dstLen accDst consumed src = .found d c pf) :
    decodeLoop multi dstLen fname perm accDst pipeOut consumed src atEOF 0 =
      decodeLoop multi dstLen (pf.2.getD fname) (pf.1.getD perm) d pipeOut
        (consumed + c) (src.drop c) atEOF 1 := by
  rw [decodeLoop, if_pos rfl]
  split <;> rename_i hs2 <;> rw [hs2] at hsk <;> cases hsk <;> rfl

theorem decodeLoop_body_err {multi : Bool} {dstLen : Nat}
    {fname perm accDst pipeOut out : List Nat} {consumed : Nat} {src : List Nat}
    {atEOF : Bool} {c : Nat} {r : Res}
    (hbd : uuBodyDec (dstLen - accDst.length) [] src atEOF = some (out, c, r))
    (hr : r ≠ .foundEOF) :
    decodeLoop multi dstLen fname perm accDst pipeOut consumed src atEOF 1 =
      some (⟨1, multi, fname, perm⟩,
        if multi then accDst else accDst ++ out,
        if multi then pipeOut ++ out else pipeOut, consumed + c, r) := by
  rw [decodeLoop, if_neg (by omega), if_pos rfl]
  split <;> rename_i hs2 <;> rw [hs2] at hbd <;> cases hbd
  rw [dif_neg hr]

theorem decodeLoop_body_eof_single {dstLen : Nat}
    {fname perm accDst pipeOut out : List Nat} {consumed : Nat} {src : List Nat}
    {atEOF : Bool} {c : Nat}
    (hbd : uuBodyDec (dstLen - accDst.length) [] src atEOF = some (out, c, .foundEOF)) :
    decodeLoop false dstLen fname perm accDst pipeOut consumed src atEOF 1 =
      decodeLoop false dstLen fname perm (accDst ++ out) pipeOut (consumed + c)
        (src.drop c) atEOF 2 := by
  rw [decodeLoop, if_neg (by omega), if_pos rfl]
  split <;> rename_i hs2 <;> rw [hs2] at hbd <;> cases hbd
  rw [dif_pos rfl]
  rw [if_neg (by simp)]

theorem decodeLoop_body_eof_multi {dstLen : Nat}
    {fname perm accDst pipeOut out : List Nat} {consumed : Nat} {src : List Nat}
    {atEOF : Bool} {c : Nat}
    (hbd : uuBodyDec (dstLen - accDst.length) [] src atEOF = some (out, c, .foundEOF)) :
    decodeLoop true dstLen fname perm accDst pipeOut consumed src atEOF 1 =
      decodeLoop true dstLen fname perm accDst (pipeOut ++ out) (consumed + c)
        (src.drop c) atEOF 0 := by
  rw [decodeLoop, if_neg (by omega), if_pos rfl]
  split <;> rename_i hs2 <;> rw [hs2] at hbd <;> cases hbd
  rw [dif_pos rfl]
  rw [if_pos rfl]

theorem decodeLoop_body_panic {multi : Bool} {dstLen : Nat}
    {fname perm accDst pipeOut : List Nat} {consumed : Nat} {src : List Nat}
    {atEOF : Bool}
    (hbd : uuBodyDec (dstLen - accDst.length) [] src atEOF = none) :
    decodeLoop multi dstLen fname perm accDst pipeOut consumed src atEOF 1 = none := by
  rw [decodeLoop, if_neg (by omega), if_pos rfl]
  split <;> rename_i hs2 <;> rw [hs2] at hbd <;> cases hbd <;> rfl

theorem decodeLoop_state2_fit {multi : Bool} {dstLen : Nat}
    {fname perm accDst pipeOut : List Nat} {consumed : Nat} {src : List Nat}
    {atEOF : Bool} (hfit : src.length ≤ dstLen - accDst.length) :
    decodeLoop multi dstLen fname perm accDst pipeOut consumed src atEOF 2 =
      some (⟨2, multi, fname, perm⟩, accDst ++ src, pipeOut,
        consumed + src.length, .ok) := by
  rw [decodeLoop, if_neg (by omega), if_neg (by omega), if_neg (by omega)]

theorem seekHeader_begin {core rest accDst : List Nat} {dstLen nSrc0 : Nat}
    (h10 : (10 : Nat) ∉ core) (hpre : beginMarker.isPrefixOf core = true) :
    seekHeader dstLen accDst nSrc0 (core ++ 10 :: rest) =
      .found accDst (core.length + 1) (parseBeginFields (stripCR core)) := by
  have hs : seekStep dstLen accDst.length nSrc0 (core ++ 10 :: rest) =
      .hdr core (core.length + 1) := by
    unfold seekStep
    rw [splitNL_append h10]
    simp only []
    rw [if_pos hpre]
  rw [seekHeader]
  split <;> rename_i hs2 <;> rw [hs2] at hs <;> cases hs <;> rfl

theorem encGroups_zero (src : List Nat) (g : Bool) : encGroups src 0 g = [] := by
  rw [encGroups, if_pos rfl]

theorem encGroups_succ (src : List Nat) (n : Nat) (g : Bool) (h : ¬ n = 0) :
    encGroups src n g = miniEncode src 0 g ++ encGroups (src.drop 3) (n - 3) g := by
  rw [encGroups, if_neg h]

theorem splitNL_isSome {l : List Nat} (h : (10 : Nat) ∈ l) :
    ∃ b t, splitNL l = some (b, t) := by
  induction l with
  | nil => cases h
  | cons c rest ih =>
    by_cases hc : c = 10
    · exact ⟨[], rest, by simp [splitNL, hc]⟩
    · have : (10 : Nat) ∈ rest := by
        rcases List.mem_cons.mp h with h1 | h1
        · exact absurd h1.symm hc
        · exact h1
      obtain ⟨b, t, hbt⟩ := ih this
      exact ⟨c :: b, t, by simp [splitNL, hc, hbt]⟩

theorem drop_append_cons (a r : List Nat) :
    (a ++ 10 :: r).drop (a.length + 1) = r := by
  rw [show a ++ 10 :: r = (a ++ [10]) ++ r by simp]
  rw [show a.length + 1 = (a ++ [10]).length by simp]
  exact List.drop_left _ _

theorem seekHeader_step_stop {dstLen nSrc0 : Nat} {accDst src : List Nat} {r : Res}
    (hs : seekStep dstLen accDst.length nSrc0 src = .stop r) :
    seekHeader dstLen accDst nSrc0 src = .stop accDst 0 r := by
  rw [seekHeader]
  split <;> rename_i hs2 <;> rw [hs2] at hs <;> cases hs <;> rfl

theorem seekHeader_copy_stop {dstLen nSrc0 : Nat} {accDst src line after d : List Nat}
    {c : Nat} {r : Res}
    (hs : seekStep dstLen accDst.length nSrc0 src = .copy line after)
    (hrec : seekHeader dstLen (accDst ++ line ++ [10]) (nSrc0 + (line.length + 1)) after =
      .stop d c r) :
    seekHeader dstLen accDst nSrc0 src = .stop d (line.length + 1 + c) r := by
  rw [seekHeader]
  split <;> rename_i hs2 <;> rw [hs2] at hs <;> cases hs
  rw [hrec]

/-- The data-line step rejects a line whose destination room is smaller than
the line's decoded size, consuming nothing. -/
theorem uuBodyStep_data_shortDst {lb : Nat} {data rest : List Nat}
    {dstLen outLen : Nat} {atEOF : Bool}
    (h1 : 32 ≤ lb) (h2 : lb < 96) (hd10 : (10 : Nat) ∉ data)
    (hd13 : data.getLastD 0 ≠ 13) (hk : data.length % 4 = 0)
    (hdst : dstLen < data.length / 4 * 3) :
    uuBodyStep dstLen outLen ((lb :: data) ++ [10] ++ rest) atEOF = .ret 0 .shortDst := by
  have hb10 : (10 : Nat) ∉ lb :: data := by
    simp only [List.mem_cons, not_or]
    exact ⟨by omega, hd10⟩
  rw [show (lb :: data) ++ [10] ++ rest = (lb :: data) ++ 10 :: rest by simp]
  unfold uuBodyStep
  rw [if_neg (by simp), splitNL_append hb10]
  simp only []
  rw [if_neg (by simp), List.headD_cons, if_neg (by omega), if_neg (by omega)]
  unfold uuDataStep
  rw [stripCR_noCR (cons_getLastD_ne13 (by omega) hd13)]
  simp only [List.length_cons, List.headD_cons, Nat.add_sub_cancel]
  rw [if_pos hk, if_pos (by omega)]

/-- The data-line step rejects a line whose length/padding accounting fails
(given enough destination room so the short-destination check passes). -/
theorem uuBodyStep_data_reject {lb : Nat} {data rest : List Nat}
    {dstLen outLen : Nat} {atEOF : Bool}
    (h1 : 32 ≤ lb) (h2 : lb < 96) (hd10 : (10 : Nat) ∉ data)
    (hd13 : data.getLastD 0 ≠ 13)
    (hdst : data.length / 4 * 3 ≤ dstLen)
    (hbad : ¬ (data.length % 4 = 0 ∧ lb - 32 ≤ data.length / 4 * 3 ∧
      data.length / 4 * 3 - (lb - 32) ≤ 2)) :
    uuBodyStep dstLen outLen ((lb :: data) ++ [10] ++ rest) atEOF = .ret 0 .badUUDec := by
  have hb10 : (10 : Nat) ∉ lb :: data := by
    simp only [List.mem_cons, not_or]
    exact ⟨by omega, hd10⟩
  rw [show (lb :: data) ++ [10] ++ rest = (lb :: data) ++ 10 :: rest by simp]
  unfold uuBodyStep
  rw [if_neg (by simp), splitNL_append hb10]
  simp only []
  rw [if_neg (by simp), List.headD_cons, if_neg (by omega), if_neg (by omega)]
  unfold uuDataStep
  rw [stripCR_noCR (cons_getLastD_ne13 (by omega) hd13)]
  simp only [List.length_cons, List.headD_cons, Nat.add_sub_cancel]
  by_cases hkk : data.length % 4 = 0
  · rw [if_pos hkk, if_neg (by omega)]
    by_cases hNN : data.length / 4 * 3 < lb - 32
    · rw [if_pos hNN]
    · rw [if_neg hNN, if_pos (by omega)]
  · rw [if_neg hkk]

/-- At a payload length that is a multiple of 45, the encoded body ends in
a zero-length final line: the space byte 0x20 followed directly by the
trailer. -/
theorem encBody_mult45 : ∀ (p : List Nat) (g : Bool) (eol : List Nat),
    p.length % 45 = 0 → ∃ pre, encBody p g eol =
      pre ++ 32 :: (eol ++ 96 :: (eol ++ [101, 110, 100] ++ eol)) := by
  intro p g eol
  induction p, g, eol using encBody.induct with
  | case1 p g eol h45 ih =>
    intro hm
    obtain ⟨pre, hpre⟩ := ih (by simp; omega)
    refine ⟨(77 :: (lineEncode p 45 g ++ eol)) ++ pre, ?_⟩
    rw [encBody, if_pos h45, hpre]
    simp
  | case2 p g eol h45 =>
    intro hm
    have h0 : p.length = 0 := by omega
    refine ⟨[], ?_⟩
    rw [encBody, if_neg h45, h0]
    simp [lineEncode, encGroups_zero]

/-- State of the cancellation resources of one `NewMultiDecode` session:
whether the `csign` channel has been closed and whether the pipe ends have
been torn down. -/
structure MultiSession where
  csignClosed : Bool
  pipeClosed : Bool
deriving DecidableEq, Repr

/-- Go `close(ch)`: closing an already-closed channel is a run-time panic
(Go language specification), modelled by `none`. -/
def closeChan (closed : Bool) : Option Bool := if closed then none else some true

/-- Go `Decode.closePipe`: `CloseWithError` on both pipe ends under the
mutex; calling it on already-closed pipes returns an error value but never
faults, so it is total. -/
def closePipe (s : MultiSession) : MultiSession := { s with pipeClosed := true }

/-- The cancel function returned by Go `NewMultiDecode`:
`func() { close(csign); d.closePipe() }`.  The session state is independent
of whether decoding has completed, so this models an invocation at any
time; `none` is the channel-close panic. -/
def cancelFn (s : MultiSession) : Option MultiSession :=
  match closeChan s.csignClosed with
  | none => none
  | some cl => some (closePipe { s with csignClosed := cl })

/-- A fresh session as created by `NewMultiDecode`. -/
def newSession : MultiSession := ⟨false, false⟩

/-- C10 theorem: the claim asserts Decode.Transform is total (no
out-of-bounds indexing), in particular on a section body containing an
empty line.  The code is not: on `begin 644 f\n\n` the body decoder reaches
an empty line and the Go code indexes `b[0]` of an empty slice, a run-time
panic, modelled here by `none`. -/
theorem C10_empty_line_panics :
    decodeTransform newDecode 100
      [98, 101, 103, 105, 110, 32, 54, 52, 52, 32, 102, 10, 10] true = none := by
  unfold decodeTransform
  rw [if_neg (by simp)]
  simp only [newDecode]
  rw [show ([98, 101, 103, 105, 110, 32, 54, 52, 52, 32, 102, 10, 10] : List Nat) =
    [98, 101, 103, 105, 110, 32, 54, 52, 52, 32, 102] ++ 10 :: [10] from rfl]
  rw [decodeLoop_seek_found (seekHeader_begin (by decide) (by decide))]
  rw [drop_append_cons]
  exact decodeLoop_body_panic (uuBodyDec_step_panic (by decide))

/-- C8 theorem: the claim asserts that invoking the cancel function
returned by NewMultiDecode more than once is a safe no-op.  The code is
not: the first invocation closes the `csign` channel, and the second
`close(csign)` is a close of an already-closed channel, which panics in
Go; the model evaluates the second invocation to `none`. -/
theorem C8_cancel_twice_panics :
    cancelFn newSession = some ⟨true, true⟩ ∧
    (cancelFn newSession).bind cancelFn = none := by decide

/-- C5 counterexample: a body line whose first data character after the
length byte is 0x7f (above 0x60) is decoded without error: the line
`#0V%` + 0x7f decodes to three bytes with result ok, not ErrBadUUDec, so
out-of-range characters beyond the length byte are not rejected. -/
theorem C5_range_cex :
    uuBodyDec 10 [] [35, 48, 86, 37, 127, 10] false = some ([67, 97, 95], 6, .ok) ∧
    Res.ok ≠ Res.badUUDec := by
  constructor
  · rw [uuBodyDec_step_cont
      (by decide : uuBodyStep 10 (List.length ([] : List Nat)) [35, 48, 86, 37, 127, 10]
        false = .cont [67, 97, 95] 6 []), uuBodyDec_nil]
    rfl
  · decide

/-- C5 (amended): only the first byte of a body line (the length byte) is
range checked: a first byte below 0x20 or above 0x60 on a terminated line
fails with ErrBadUUDec and nothing is consumed or written; characters after
the length byte are never range checked (see the counterexample). -/
theorem C5_first_byte_range (lb : Nat) (tail : List Nat) (dstLen : Nat) (atEOF : Bool)
    (hne : lb ≠ 10) (hrange : lb < 32 ∨ 96 < lb) (h10 : (10 : Nat) ∈ tail) :
    uuBodyDec dstLen [] (lb :: tail) atEOF = some ([], 0, .badUUDec) := by
  obtain ⟨b, t, hbt⟩ := splitNL_isSome h10
  have hs : uuBodyStep dstLen (List.length ([] : List Nat)) (lb :: tail) atEOF =
      .ret 0 .badUUDec := by
    unfold uuBodyStep
    rw [if_neg (by simp)]
    rw [show splitNL (lb :: tail) = some (lb :: b, t) from by simp [splitNL, hne, hbt]]
    simp only []
    rw [if_neg (by simp), List.headD_cons, if_neg (by omega), if_pos (by omega)]
  exact uuBodyDec_step_ret hs

/-- C5 witness: the amended theorem at the length byte 0x61 (`a`), the
input of the repository's own upper-limit test. -/
theorem C5_first_byte_range_witness :
    uuBodyDec 5 [] (97 :: [10]) false = some ([], 0, .badUUDec) :=
  C5_first_byte_range 97 [10] 5 false (by decide) (by decide) (by decide)

/-- C9 counterexample: encoding the empty payload (length a multiple of 45)
emits the final zero-length line as the byte 0x20 (space, `byte(0)+uuOffset`),
not the grave 0x60 the claim states: the body output starts with 32. -/
theorem C9_zero_line_cex :
    uuBodyEnc true [10] 20 [] [] true = ([32, 10, 96, 10, 101, 110, 100, 10], 0, .ok) ∧
    (32 : Nat) ≠ 96 := by
  constructor
  · have hB : encBody [] true [10] = [32, 10, 96, 10, 101, 110, 100, 10] := by
      rw [encBody]
      simp [lineEncode, encGroups_zero]
    have hc := uuBodyEnc_complete [] true [10] [] 20 (by rw [hB]; decide)
    rw [hB] at hc
    simpa using hc
  · decide

/-- C9 (amended): when the payload length is a multiple of 45 (including the
empty payload), the encoder at end-of-stream emits a zero-length final line
consisting of the single byte 0x20 (space: offset plus zero, to which the
grave substitution is never applied because the length byte is written
directly), immediately followed by the trailer. -/
theorem C9_zero_final_line (p : List Nat) (g : Bool) (eol : List Nat) (dstLen : Nat)
    (h45 : p.length % 45 = 0) (hd : (encBody p g eol).length ≤ dstLen) :
    uuBodyEnc g eol dstLen [] p true = (encBody p g eol, p.length, .ok) ∧
    ∃ pre, encBody p g eol =
      pre ++ 32 :: (eol ++ 96 :: (eol ++ [101, 110, 100] ++ eol)) := by
  refine ⟨?_, encBody_mult45 p g eol h45⟩
  have hc := uuBodyEnc_complete p g eol [] dstLen (by simpa using hd)
  simpa using hc

/-- C9 witness: the amended theorem at the empty payload. -/
theorem C9_zero_final_line_witness :
    uuBodyEnc true [10] 20 [] [] true = (encBody [] true [10], ([] : List Nat).length, .ok) ∧
    ∃ pre, encBody [] true [10] =
      pre ++ 32 :: ([10] ++ 96 :: ([10] ++ [101, 110, 100] ++ [10])) :=
  C9_zero_final_line [] true [10] 20 (by decide)
    (by simp [encBody, lineEncode, encGroups_zero])

/-- C6 counterexample: in multi mode, a line that is not a begin header is
copied to dst (5 bytes of junk appear in dst), contradicting the claim that
bytes outside uuencoded sections are discarded and never written to dst. -/
theorem C6_multi_junk_cex :
    decodeTransform newMultiDecode 10 [106, 117, 110, 107, 10] true =
      some (newMultiDecode, [106, 117, 110, 107, 10], [], 5, .shortSrc) ∧
    ([106, 117, 110, 107, 10] : List Nat) ≠ [] := by
  constructor
  · unfold decodeTransform
    rw [if_neg (by decide)]
    simp only [newMultiDecode]
    have hs1 : seekStep 10 (List.length ([] : List Nat)) 0 [106, 117, 110, 107, 10] =
        .copy [106, 117, 110, 107] [] := by decide
    have hs2 : seekStep 10 (List.length (([] : List Nat) ++ [106, 117, 110, 107] ++ [10]))
        (0 + ([106, 117, 110, 107] : List Nat).length + 1) [] = .stop .shortSrc := by decide
    rw [decodeLoop_seek_stop (seekHeader_copy_stop hs1 (seekHeader_step_stop hs2))]
    rfl
  · decide

/-- C6 (amended): in multi mode, any complete line that is not a begin
header and fits in dst is copied through to dst (and consumed), exactly as
in single mode: between-section bytes are forwarded, not discarded. -/
theorem C6_multi_passthrough (line : List Nat) (dstLen : Nat) (atEOF : Bool)
    (hnb : beginMarker.isPrefixOf line = false) (h10 : (10 : Nat) ∉ line)
    (hfit : line.length + 1 ≤ dstLen) :
    decodeTransform newMultiDecode dstLen (line ++ [10]) atEOF =
      some (newMultiDecode, line ++ [10], [], line.length + 1, .shortSrc) := by
  unfold decodeTransform
  rw [if_neg (by simp)]
  simp only [newMultiDecode]
  have hs1 : seekStep dstLen (List.length ([] : List Nat)) 0 (line ++ [10]) =
      .copy line [] := by
    unfold seekStep
    rw [show line ++ [10] = line ++ 10 :: [] from rfl, splitNL_append h10]
    simp only []
    rw [if_neg (by simp [hnb]), if_neg (by simp; omega)]
  have hs2 : seekStep dstLen (List.length (([] : List Nat) ++ line ++ [10]))
      (0 + line.length + 1) [] = .stop .shortSrc := by
    unfold seekStep
    rw [show splitNL [] = none from rfl]
    simp only []
    rw [if_pos (by omega)]
  rw [decodeLoop_seek_stop (seekHeader_copy_stop hs1 (seekHeader_step_stop hs2))]
  simp

/-- C6 witness: the amended theorem at the single junk byte 0x6a. -/
theorem C6_multi_passthrough_witness :
    decodeTransform newMultiDecode 2 ([106] ++ [10]) false =
      some (newMultiDecode, [106] ++ [10], [], ([106] : List Nat).length + 1, .shortSrc) :=
  C6_multi_passthrough [106] 2 false (by decide) (by decide) (by decide)

/-- C7 counterexample: on the header `begin 644 a b` the stored filename is
`a` (the third whitespace-separated field alone), not `a b` as the claim's
"remainder of the line" reading requires. -/
theorem C7_filename_cex :
    decodeTransform newDecode 100
      [98, 101, 103, 105, 110, 32, 54, 52, 52, 32, 97, 32, 98, 10] true =
      some (⟨1, false, [97], [54, 52, 52]⟩, [], [], 14, .ok) ∧
    ([97] : List Nat) ≠ [97, 32, 98] := by
  constructor
  · unfold decodeTransform
    rw [if_neg (by decide)]
    simp only [newDecode]
    rw [show ([98, 101, 103, 105, 110, 32, 54, 52, 52, 32, 97, 32, 98, 10] : List Nat) =
      [98, 101, 103, 105, 110, 32, 54, 52, 52, 32, 97, 32, 98] ++ 10 :: [] from rfl]
    rw [decodeLoop_seek_found (seekHeader_begin (by decide) (by decide))]
    rw [drop_append_cons]
    rw [decodeLoop_body_err (by rw [uuBodyDec_nil]) (by decide)]
    rfl
  · decide

/-- C7 (amended): parsing a begin header line updates the metadata as the
code does: the stored permission is the second whitespace-separated field
when it parses as an integer (strconv.Atoi also accepts signed values), and
the stored filename is exactly the third whitespace-separated field; each
keeps its previous value when its field is absent (or, for the permission,
non-numeric). -/
theorem C7_header_fields (b : List Nat) (f0 p0 : List Nat) (dstLen : Nat) (atEOF : Bool)
    (hpre : beginMarker.isPrefixOf b = true) (h10 : (10 : Nat) ∉ b)
    (h13 : b.getLastD 0 ≠ 13) :
    ((decodeTransform ⟨0, false, f0, p0⟩ dstLen (b ++ [10]) atEOF).map
        (fun r => (r.1.Filename, r.1.Permission))) =
      some
        (if 2 < (b.splitOn 32).length then (b.splitOn 32).getD 2 [] else f0,
         if 1 < (b.splitOn 32).length ∧ atoiOk ((b.splitOn 32).getD 1 []) = true
           then (b.splitOn 32).getD 1 [] else p0) := by
  unfold decodeTransform
  rw [if_neg (by simp)]
  simp only []
  rw [show b ++ [10] = b ++ 10 :: [] from rfl]
  rw [decodeLoop_seek_found (seekHeader_begin h10 hpre)]
  rw [drop_append_cons]
  rw [decodeLoop_body_err (by rw [uuBodyDec_nil]) (by decide)]
  simp only [Option.map_some', Option.some.injEq, Prod.mk.injEq]
  unfold parseBeginFields
  rw [show stripCR b = b from by unfold stripCR; rw [if_neg h13]]
  constructor
  · split_ifs <;> simp
  · split_ifs <;> simp

/-- C3 theorem: encoding the literal payload `I love you forever.` with
grave substitution, eol `\n` and file name `pp.txt` consumes all 19 bytes
and produces exactly the bytes of
`begin 644 pp.txt\n322!L;W9E('EO=2!F;W)E=F5R+@``\n`\nend\n`. -/
theorem C3_literal_vector :
    encodeTransform (newEncode true [10] [[112, 112, 46, 116, 120, 116]]) 53
      [73, 32, 108, 111, 118, 101, 32, 121, 111, 117, 32, 102, 111, 114, 101, 118,
       101, 114, 46] true =
      (⟨1, [54, 52, 52], [112, 112, 46, 116, 120, 116], true, [10]⟩,
       ([98, 101, 103, 105, 110, 32, 54, 52, 52, 32, 112, 112, 46, 116, 120, 116, 10,
         51, 50, 50, 33, 76, 59, 87, 57, 69, 40, 39, 69, 79, 61, 50, 33, 70, 59, 87,
         41, 69, 61, 70, 53, 82, 43, 64, 96, 96, 10, 96, 10, 101, 110, 100, 10],
        19, .ok)) := by
  have hg : (newEncode true [10] [[112, 112, 46, 116, 120, 116]]).useGrave = true := rfl
  have he : (newEncode true [10] [[112, 112, 46, 116, 120, 116]]).eol = [10] := rfl
  have hB : encBody [73, 32, 108, 111, 118, 101, 32, 121, 111, 117, 32, 102, 111,
      114, 101, 118, 101, 114, 46] true [10] =
      [51, 50, 50, 33, 76, 59, 87, 57, 69, 40, 39, 69, 79, 61, 50, 33, 70, 59, 87,
       41, 69, 61, 70, 53, 82, 43, 64, 96, 96, 10, 96, 10, 101, 110, 100, 10] := by
    rw [encBody]
    norm_num [lineEncode]
    simp [encGroups_succ, encGroups_zero]
    decide
  have hc := encodeTransform_complete (newEncode true [10] [[112, 112, 46, 116, 120, 116]])
    [73, 32, 108, 111, 118, 101, 32, 121, 111, 117, 32, 102, 111, 114, 101, 118,
     101, 114, 46] 53 rfl (by rw [hg, he, hB]; decide)
  rw [hg, he, hB] at hc
  exact hc.trans rfl

/-- C4 theorem: for a newline-terminated body line with an in-range length
byte, the decoder accepts the line only when the data length is a multiple
of 4 and the declared byte count is within the 0..2 padding slack of the
converted length; otherwise it fails with ErrBadUUDec consuming nothing.
On acceptance the whole line (length byte, data, newline) is consumed and
exactly the declared number of bytes is produced. -/
theorem C4_line_validation (lb : Nat) (data rest : List Nat) (dstLen : Nat) (atEOF : Bool)
    (h1 : 32 ≤ lb) (h2 : lb < 96) (hd10 : (10 : Nat) ∉ data)
    (hd13 : data.getLastD 0 ≠ 13) (hdst : data.length / 4 * 3 ≤ dstLen) :
    (¬ (data.length % 4 = 0 ∧ lb - 32 ≤ data.length / 4 * 3 ∧
        data.length / 4 * 3 - (lb - 32) ≤ 2) →
      uuBodyDec dstLen [] ((lb :: data) ++ [10] ++ rest) atEOF =
        some ([], 0, .badUUDec)) ∧
    ((data.length % 4 = 0 ∧ lb - 32 ≤ data.length / 4 * 3 ∧
        data.length / 4 * 3 - (lb - 32) ≤ 2) →
      uuBodyDec dstLen [] ((lb :: data) ++ [10] ++ rest) atEOF =
        (uuBodyDec dstLen ((miniConvert data).take (lb - 32)) rest atEOF).map
          (fun r => (r.1, data.length + 2 + r.2.1, r.2.2)) ∧
      ((miniConvert data).take (lb - 32)).length = lb - 32) := by
  constructor
  · intro hbad
    exact uuBodyDec_step_ret (uuBodyStep_data_reject h1 h2 hd10 hd13 hdst hbad)
  · rintro ⟨hk, hN, hpad⟩
    refine ⟨?_, ?_⟩
    · rw [uuBodyDec_step_cont (uuBodyStep_data (Or.inl rfl) h1 h2 hd10 hd13 hk hN hpad
        (by simp only [List.length_nil, Nat.sub_zero]; omega) hdst)]
      simp only [List.nil_append]
      have hfun : (fun r : List Nat × Nat × Res =>
          (r.1, data.length + 1 + ([10] : List Nat).length + r.2.1, r.2.2)) =
          (fun r : List Nat × Nat × Res => (r.1, data.length + 2 + r.2.1, r.2.2)) := by
        funext r
        simp
      rw [hfun]
    · rw [List.length_take, miniConvert_length_of_mod4 data hk]
      omega

/-- C4 witness: the accepting case of the validation theorem on the line
`#0V%T` (length byte 0x23, four data characters). -/
theorem C4_line_validation_witness :
    uuBodyDec 5 [] ((35 :: [48, 86, 37, 84]) ++ [10] ++ []) false =
      (uuBodyDec 5 ((miniConvert [48, 86, 37, 84]).take 3) [] false).map
        (fun r => (r.1, 6 + r.2.1, r.2.2)) :=
  ((C4_line_validation 35 [48, 86, 37, 84] [] 5 false (by decide) (by decide)
      (by decide) (by decide) (by decide)).2 (by decide)).1

/-- C1 counterexample: the round trip fails for an arbitrary end-of-line
string: with eol `x` the encoder succeeds (result ok), but its own output
contains no newline, so the decoder stops with ErrBadLen (the `begin` prefix
branch) instead of recovering the payload. -/
theorem C1_any_eol_cex :
    encodeTransform (newEncode true [120] []) 27 [] true =
      ({newEncode true [120] [] with state := 1},
       ([98, 101, 103, 105, 110, 32, 54, 52, 52, 32, 102, 105, 108, 101, 110, 97,
         109, 101, 120, 32, 120, 96, 120, 101, 110, 100, 120], 0, .ok)) ∧
    decodeTransform newDecode 100
      [98, 101, 103, 105, 110, 32, 54, 52, 52, 32, 102, 105, 108, 101, 110, 97,
       109, 101, 120, 32, 120, 96, 120, 101, 110, 100, 120] true =
      some (newDecode, [], [], 0, .badLen) ∧
    Res.badLen ≠ Res.ok := by
  refine ⟨?_, ?_, by decide⟩
  · have hg : (newEncode true [120] []).useGrave = true := rfl
    have he : (newEncode true [120] []).eol = [120] := rfl
    have hB : encBody [] true [120] = [32, 120, 96, 120, 101, 110, 100, 120] := by
      rw [encBody]
      simp [lineEncode, encGroups_zero]
    have hc := encodeTransform_complete (newEncode true [120] []) [] 27 rfl
      (by rw [hg, he, hB]; decide)
    rw [hg, he, hB] at hc
    exact hc.trans rfl
  · unfold decodeTransform
    rw [if_neg (by decide)]
    simp only [newDecode]
    rw [decodeLoop_seek_stop (seekHeader_step_stop
      (by decide : seekStep 100 (List.length ([] : List Nat)) 0
        [98, 101, 103, 105, 110, 32, 54, 52, 52, 32, 102, 105, 108, 101, 110, 97,
         109, 101, 120, 32, 120, 96, 120, 101, 110, 100, 120] = .stop .badLen))]

/-- C1 (amended): the encode/decode round trip holds when the end-of-line
string is `\n` or `\r\n` (not for an arbitrary eol string, see the
counterexample): encoding a byte payload at end-of-stream consumes it all
with result ok, and decoding the encoder's exact output at end-of-stream
consumes it all and reproduces the payload with result ok. -/
theorem C1_roundtrip (p : List Nat) (g : Bool) (eol : List Nat)
    (hb : ∀ b ∈ p, b < 256) (he : eol = [10] ∨ eol = [13, 10]) :
    encodeTransform (newEncode g eol [])
        ((startLine (newEncode g eol [])).length + (encBody p g eol).length) p true =
      ({newEncode g eol [] with state := 1},
       (startLine (newEncode g eol []) ++ encBody p g eol, p.length, .ok)) ∧
    decodeTransform newDecode (p.length + 2)
        (startLine (newEncode g eol []) ++ encBody p g eol) true =
      some (⟨2, false, [102, 105, 108, 101, 110, 97, 109, 101], [54, 52, 52]⟩, p, [],
        (startLine (newEncode g eol [])).length + (encBody p g eol).length, .ok) := by
  have hg : (newEncode g eol []).useGrave = g := rfl
  have heol : (newEncode g eol []).eol = eol := rfl
  constructor
  · have hc := encodeTransform_complete (newEncode g eol []) p
      ((startLine (newEncode g eol [])).length + (encBody p g eol).length) rfl
      (le_of_eq (by rw [hg, heol]))
    rw [hg, heol] at hc
    exact hc
  · rcases he with he | he
    · subst he
      have hstart : startLine (newEncode g [10] []) =
          [98, 101, 103, 105, 110, 32, 54, 52, 52, 32, 102, 105, 108, 101, 110, 97,
           109, 101] ++ [10] := rfl
      have hsrc : startLine (newEncode g [10] []) ++ encBody p g [10] =
          [98, 101, 103, 105, 110, 32, 54, 52, 52, 32, 102, 105, 108, 101, 110, 97,
           109, 101] ++ 10 :: encBody p g [10] := by
        rw [hstart]
        simp
      rw [hsrc]
      unfold decodeTransform
      rw [if_neg (by simp)]
      simp only [newDecode]
      rw [decodeLoop_seek_found (seekHeader_begin (by decide) (by decide))]
      rw [show parseBeginFields (stripCR
          [98, 101, 103, 105, 110, 32, 54, 52, 52, 32, 102, 105, 108, 101, 110, 97,
           109, 101]) =
        (some [54, 52, 52], some [102, 105, 108, 101, 110, 97, 109, 101]) from by decide]
      simp only [Option.getD_some]
      rw [drop_append_cons]
      rw [decodeLoop_body_eof_single (uuBodyDec_encBody p g [10] (Or.inl rfl) hb []
        (p.length + 2 - List.length ([] : List Nat)) true (by simp))]
      rw [List.drop_length]
      rw [decodeLoop_state2_fit (by simp)]
      rw [hstart]
      simp
    · subst he
      have hstart : startLine (newEncode g [13, 10] []) =
          [98, 101, 103, 105, 110, 32, 54, 52, 52, 32, 102, 105, 108, 101, 110, 97,
           109, 101, 13] ++ [10] := rfl
      have hsrc : startLine (newEncode g [13, 10] []) ++ encBody p g [13, 10] =
          [98, 101, 103, 105, 110, 32, 54, 52, 52, 32, 102, 105, 108, 101, 110, 97,
           109, 101, 13] ++ 10 :: encBody p g [13, 10] := by
        rw [hstart]
        simp
      rw [hsrc]
      unfold decodeTransform
      rw [if_neg (by simp)]
      simp only [newDecode]
      rw [decodeLoop_seek_found (seekHeader_begin (by decide) (by decide))]
      rw [show parseBeginFields (stripCR
          [98, 101, 103, 105, 110, 32, 54, 52, 52, 32, 102, 105, 108, 101, 110, 97,
           109, 101, 13]) =
        (some [54, 52, 52], some [102, 105, 108, 101, 110, 97, 109, 101]) from by decide]
      simp only [Option.getD_some]
      rw [drop_append_cons]
      rw [decodeLoop_body_eof_single (uuBodyDec_encBody p g [13, 10] (Or.inr rfl) hb []
        (p.length + 2 - List.length ([] : List Nat)) true (by simp))]
      rw [List.drop_length]
      rw [decodeLoop_state2_fit (by simp)]
      rw [hstart]
      simp

/-- C1 witness: the amended round trip at the payload `Hi` without grave
substitution and eol `\n`. -/
theorem C1_roundtrip_witness :
    encodeTransform (newEncode false [10] [])
        ((startLine (newEncode false [10] [])).length +
          (encBody [72, 105] false [10]).length) [72, 105] true =
      ({newEncode false [10] [] with state := 1},
       (startLine (newEncode false [10] []) ++ encBody [72, 105] false [10],
        ([72, 105] : List Nat).length, .ok)) ∧
    decodeTransform newDecode (([72, 105] : List Nat).length + 2)
        (startLine (newEncode false [10] []) ++ encBody [72, 105] false [10]) true =
      some (⟨2, false, [102, 105, 108, 101, 110, 97, 109, 101], [54, 52, 52]⟩,
        [72, 105], [],
        (startLine (newEncode false [10] [])).length +
          (encBody [72, 105] false [10]).length, .ok) :=
  C1_roundtrip [72, 105] false [10] (by decide) (Or.inl rfl)

/-- C2 theorem: short-destination calls are atomic and a retry makes
progress.  Decoder: a line whose converted length exceeds the room fails
with ErrShortDst writing and consuming nothing, and with enough room the
retry consumes the whole line and writes its bytes.  Encoder: when a full
45-byte line (61+eol bytes) does not fit nothing is consumed or written;
the retry with room emits the complete line and consumes exactly 45 bytes;
likewise the final partial line plus trailer is emitted atomically: short
destination consumes nothing, a retry with room completes. -/
theorem C2_short_dst_atomicity (lb : Nat) (data rest : List Nat) (dstS dstL : Nat)
    (atEOF : Bool) (g : Bool) (eol src45 srcP : List Nat)
    (encS encL encPS encPL : Nat)
    (h1 : 32 ≤ lb) (h2 : lb < 96) (hd10 : (10 : Nat) ∉ data)
    (hd13 : data.getLastD 0 ≠ 13) (hk : data.length % 4 = 0)
    (hN : lb - 32 ≤ data.length / 4 * 3) (hpad : data.length / 4 * 3 - (lb - 32) ≤ 2)
    (hS : dstS < data.length / 4 * 3) (hL : data.length / 4 * 3 ≤ dstL)
    (h45 : 45 ≤ src45.length) (heS : encS < 61 + eol.length)
    (heL : 61 + eol.length ≤ encL) (hP : srcP.length < 45)
    (hePS : encPS < (srcP.length / 3 + (if srcP.length % 3 > 0 then 1 else 0)) * 4 + 1 +
      (eol ++ 96 :: (eol ++ [101, 110, 100] ++ eol)).length)
    (hePL : (encBody srcP g eol).length ≤ encPL) :
    uuBodyDec dstS [] ((lb :: data) ++ [10] ++ rest) atEOF = some ([], 0, .shortDst) ∧
    uuBodyDec dstL [] ((lb :: data) ++ [10]) atEOF =
      some ((miniConvert data).take (lb - 32), data.length + 2, .ok) ∧
    uuBodyEnc g eol encS [] src45 atEOF = ([], 0, .shortDst) ∧
    uuBodyEnc g eol encL [] (src45.take 45) false =
      (77 :: (lineEncode (src45.take 45) 45 g ++ eol), 45, .shortSrc) ∧
    uuBodyEnc g eol encPS [] srcP true = ([], 0, .shortDst) ∧
    uuBodyEnc g eol encPL [] srcP true = (encBody srcP g eol, srcP.length, .ok) := by
  refine ⟨?_, ?_, ?_, ?_, ?_, ?_⟩
  · exact uuBodyDec_step_ret (uuBodyStep_data_shortDst h1 h2 hd10 hd13 hk hS)
  · rw [show (lb :: data) ++ [10] = (lb :: data) ++ [10] ++ ([] : List Nat) from by simp]
    rw [uuBodyDec_step_cont (uuBodyStep_data (Or.inl rfl) h1 h2 hd10 hd13 hk hN hpad
      (by simp only [List.length_nil, Nat.sub_zero]; omega) hL)]
    rw [uuBodyDec_nil]
    simp
  · rw [uuBodyEnc, dif_pos h45,
      if_pos (by simp only [List.length_nil, Nat.sub_zero]; omega)]
  · rw [uuBodyEnc, dif_pos (by rw [List.length_take]; omega),
      if_neg (by simp only [List.length_nil, Nat.sub_zero]; omega)]
    rw [List.drop_eq_nil_of_le (by rw [List.length_take]; omega)]
    rw [show uuBodyEnc g eol encL
        ([] ++ 77 :: (lineEncode (src45.take 45) 45 g ++ eol)) [] false =
        ([] ++ 77 :: (lineEncode (src45.take 45) 45 g ++ eol), 0, .shortSrc) from by
      rw [uuBodyEnc]; simp]
    simp [addConsumed]
  · rw [uuBodyEnc, dif_neg (by omega), if_pos rfl,
      if_pos (by simp only [List.length_nil, Nat.sub_zero]; exact hePS)]
  · have hc := uuBodyEnc_complete srcP g eol [] encPL (by simpa using hePL)
    simpa using hc

/-- C2 witness: the decoder's short-destination refusal of the line `#0V%T`
with only 2 bytes of room, taken from the atomicity theorem instantiated at
concrete inputs on both the decode and encode sides. -/
theorem C2_short_dst_atomicity_witness :
    uuBodyDec 2 [] ((35 :: [48, 86, 37, 84]) ++ [10] ++ [65]) false =
      some ([], 0, .shortDst) :=
  (C2_short_dst_atomicity 35 [48, 86, 37, 84] [65] 2 3 false true [10]
    (List.replicate 46 65) [65] 10 62 3 20 (by decide) (by decide) (by decide)
    (by decide) (by decide) (by decide) (by decide) (by decide) (by decide)
    (by decide) (by decide) (by decide) (by decide) (by decide)
    (by rw [encBody]; simp [lineEncode_length])).1

/-- C7 witness: the header-fields theorem at the header line `begin 644 f`
starting from empty stored metadata. -/
theorem C7_header_fields_witness :
    ((decodeTransform ⟨0, false, [], []⟩ 100
        ([98, 101, 103, 105, 110, 32, 54, 52, 52, 32, 102] ++ [10]) true).map
      (fun r => (r.1.Filename, r.1.Permission))) =
    some
      (if 2 < (([98, 101, 103, 105, 110, 32, 54, 52, 52, 32, 102] : List Nat).splitOn
            32).length
        then (([98, 101, 103, 105, 110, 32, 54, 52, 52, 32, 102] : List Nat).splitOn
          32).getD 2 [] else [],
       if 1 < (([98, 101, 103, 105, 110, 32, 54, 52, 52, 32, 102] : List Nat).splitOn
            32).length ∧
          atoiOk ((([98, 101, 103, 105, 110, 32, 54, 52, 52, 32, 102] :
            List Nat).splitOn 32).getD 1 []) = true
        then (([98, 101, 103, 105, 110, 32, 54, 52, 52, 32, 102] : List Nat).splitOn
          32).getD 1 [] else []) :=
  C7_header_fields [98, 101, 103, 105, 110, 32, 54, 52, 52, 32, 102] [] [] 100 true
    (by decide) (by decide) (by decide)
